import Mathlib

/-!
Shallow embedding of the message-element rendering pipeline of
`src/messages/MessageElement.cpp` (chatterino7), together with the
7TV `UrlPaint::asBrush` brush computation, and proofs of the
specification claims about them.

Strings are modelled as lists of UTF-16 code units (`QStr`), font
metrics as an abstract per-unit advance function, and the layout
container (whose source is not part of this excerpt) is modelled from
the spec as a cursor/accumulator over a fixed line width.
-/

namespace Chatterino

/-- A QString: a sequence of UTF-16 code units, each a `Nat` below 2^16. -/
abbrev QStr := List Nat

/-- Mirrors `QChar::isHighSurrogate`: the unit lies in the high-surrogate range. -/
def isHighSurrogate (u : Nat) : Bool :=
  decide (0xD800 ≤ u) && decide (u ≤ 0xDBFF)

/-- Split a QString on the space character, mirroring `QString::split(' ')`
(which yields at least one piece, possibly empty). -/
def splitOnSpace (s : QStr) : List QStr :=
  s.foldr
    (fun u acc =>
      match acc with
      | [] => if u = 0x20 then [[], []] else [[u]]
      | w :: ws => if u = 0x20 then [] :: (w :: ws) else (u :: w) :: ws)
    [[]]

/-- Mirrors `QString::trimmed`, restricted to the space character: drop leading and
trailing spaces. -/
def trimmed (s : QStr) : QStr :=
  ((s.dropWhile (fun u => u = 0x20)).reverse.dropWhile (fun u => u = 0x20)).reverse

/-- Join a list of strings with single spaces, mirroring the
`result += " "; result += ...` accumulation loops. -/
def joinSpace (l : List QStr) : QStr :=
  match l with
  | [] => []
  | s :: rest => rest.foldl (fun acc t => acc ++ [0x20] ++ t) s

/-! ## Message element flags

`MessageElementFlags` is a bitset; we model it as a `Nat` bitmask. The
particular bit values are arbitrary distinct bits. -/

/-- The flag `MessageElementFlag::None`. -/
def flagNone : Nat := 0

/-- The flag `MessageElementFlag::Misc`. -/
def flagMisc : Nat := 1

/-- The flag `MessageElementFlag::Text`. -/
def flagText : Nat := 2

/-- The flag `MessageElementFlag::Timestamp`. -/
def flagTimestamp : Nat := 4

/-- The flag `MessageElementFlag::ModeratorTools`. -/
def flagModeratorTools : Nat := 8

/-- The flag `MessageElementFlag::EmoteImages`. -/
def flagEmoteImages : Nat := 16

/-- The flag `MessageElementFlag::RepliedMessage`. -/
def flagRepliedMessage : Nat := 32

/-- Test `flags.hasAny(other)`: the two flag sets intersect (`flags.hasAny(...)`). -/
def flagsHasAny (a b : Nat) : Bool :=
  decide (a.land b ≠ 0)

/-- Test `flags.has(f)`: every bit of `f` is present in `a`. -/
def flagsHas (a f : Nat) : Bool :=
  decide (a.land f = f)

/-- Mirrors `flags.set(f)`: bitwise union, used by `MessageElement::addFlags`. -/
def flagsSet (a f : Nat) : Nat :=
  a.lor f

/-! ## Images, emotes, metrics -/

/-- An `Image` as the element code observes it: integer pixel width and
height plus the empty-sentinel test `isEmpty`. -/
structure Image where
  width : Nat
  height : Nat
  isEmpty : Bool
deriving DecidableEq, Repr

/-- An `Emote` resource: `images.getImageOrLoaded(scale)` modelled as a
function of the (integer-modelled) scale, plus tooltip and copy string. -/
structure Emote where
  imageAt : Nat → Image
  tooltip : QStr
  copyString : QStr

/-- Font metrics: per-unit horizontal advance, per-surrogate-pair advance
and line height, all at a fixed font style and scale. -/
structure Metrics where
  advUnit : Nat → Nat
  advPair : Nat → Nat → Nat
  height : Nat

/-- Mirrors `QFontMetrics::horizontalAdvance` over a QString, walking units and
treating a high surrogate followed by another unit as one pair. -/
def hAdvance (m : Metrics) : QStr → Nat
  | [] => 0
  | u :: v :: rest =>
      if isHighSurrogate u then m.advPair u v + hAdvance m rest
      else m.advUnit u + hAdvance m (v :: rest)
  | [u] => m.advUnit u

/-! ## Links -/

/-- Mirrors `Link::Type`, restricted to the cases this file uses. -/
inductive LinkType where
  | none
  | url
  | userAction
deriving DecidableEq, Repr

/-- A `Link`: a type tag and a value string. -/
structure Link where
  type : LinkType
  value : QStr
deriving DecidableEq, Repr

/-- The default link (`Link::None`). -/
def Link.noLink : Link := ⟨LinkType.none, []⟩

/-! ## Layout primitives and the layout container

`MessageLayoutContainer` is not part of this source excerpt.

Modelled from the spec: the Layout Container is a "mutable
cursor/accumulator that elements append visual primitives into, tracking
line-wrap state, scale, and remaining width", exposing "line-break and
'fits in line' queries". We model it as a fixed line width, a cursor `x`
of used width on the current line, and the ordered list of emitted
primitives; a line break resets the cursor and is recorded in the output
stream. -/

/-- Badge/image background treatment, distinguishing the layout element
subclasses the variants construct. -/
inductive ImageStyle where
  | plain
  | circleBackground (padding : Nat) (color : Nat)
  | background (color : Nat)
deriving DecidableEq, Repr

/-- A visual primitive appended into the layout container. -/
inductive Prim where
  | text (content : QStr) (width : Nat) (heightPx : Nat) (trailing : Bool)
      (link : Link)
  | image (style : ImageStyle) (w h : Nat) (link : Link)
  | layeredImage (sizes : List (Nat × Nat)) (totalW totalH : Nat) (link : Link)
  | textIcon (line1 line2 : QStr) (w h : Nat) (link : Link)
  | replyCurve (w : Nat)
  | brk
deriving DecidableEq, Repr

/-- The width a primitive occupies on the current line. -/
def Prim.widthOf : Prim → Nat
  | .text _ w _ _ _ => w
  | .image _ w _ _ => w
  | .layeredImage _ w _ _ => w
  | .textIcon _ _ w _ _ => w
  | .replyCurve w => w
  | .brk => 0

/-- Modelled from the spec: the layout container state (missing
`MessageLayoutContainer` source): render scale, fixed line width, used
width on the current line and the emitted primitives in order. -/
structure Container where
  scale : Nat
  lineWidth : Nat
  x : Nat
  out : List Prim
deriving Repr

/-- Modelled from the spec: `fitsInLine(width)` — the width fits in the
remaining width of the current line. -/
def Container.fitsInLine (c : Container) (w : Nat) : Bool :=
  decide (c.x + w ≤ c.lineWidth)

/-- Modelled from the spec: `atStartOfLine()` — no width used yet on the
current line. -/
def Container.atStartOfLine (c : Container) : Bool :=
  decide (c.x = 0)

/-- Modelled from the spec: `remainingWidth()`. -/
def Container.remainingWidth (c : Container) : Nat :=
  c.lineWidth - c.x

/-- Modelled from the spec: `breakLine()` — reset the cursor to the start
of a fresh line; the break is recorded in the primitive stream. -/
def Container.breakLine (c : Container) : Container :=
  { c with x := 0, out := c.out ++ [Prim.brk] }

/-- Modelled from the spec: `addElementNoLineBreak(e)` — append the
primitive on the current line and advance the cursor by its width. -/
def Container.addNoBreak (c : Container) (p : Prim) : Container :=
  { c with x := c.x + p.widthOf, out := c.out ++ [p] }

/-- Modelled from the spec: `addElement(e)` — break the line first when
the primitive does not fit, then append it. -/
def Container.addElement (c : Container) (p : Prim) : Container :=
  if c.fitsInLine p.widthOf then c.addNoBreak p
  else (c.breakLine).addNoBreak p

/-! ## External environment

Collaborators the element code reads: the emote heap (an `EmotePtr` is a
pointer, modelled as a `Nat` identity resolved through `emoteOf`), font
metrics per style and scale, the settings singleton, the emoji tokenizer
and the locale time formatter. -/

/-- A token produced by `app->emotes->emojis.parse`: either plain text or
an emote reference. -/
inductive ParsedWord where
  | str (s : QStr)
  | emoteRef (ptr : Nat)

/-- One configured moderation action, as `TwitchModerationElement` reads
it: optional icon image, the invocation string, and two caption lines. -/
structure ModAction where
  imageOf : Option Image
  action : QStr
  line1 : QStr
  line2 : QStr

/-- The external environment: emote heap, fonts, settings, tokenizer and
locale formatter. -/
structure Env where
  emoteOf : Nat → Emote
  metricsOf : Nat → Nat → Metrics
  emoteScale : Nat
  timestampFormat : QStr
  moderationActions : List ModAction
  parse : QStr → List ParsedWord
  localeFormat : Nat → QStr → QStr

/-! ## Element data -/

/-- The base `MessageElement` state. -/
structure ElementBase where
  flags : Nat
  link : Link
  text : QStr
  tooltip : QStr
  thumbnail : Option Image
  thumbnailType : Nat
  trailingSpace : Bool

/-- The `MessageElement(flags)` constructor: only the flag set is given;
the other fields take their defaults (`trailingSpace` defaults to true). -/
def ElementBase.mkFlags (flags : Nat) : ElementBase :=
  { flags := flags, link := Link.noLink, text := [], tooltip := [],
    thumbnail := none, thumbnailType := 0, trailingSpace := true }

/-- Mirrors `MessageElement::cloneFrom`: copy text, link, tooltip,
thumbnail, thumbnail type and flags from `source` into `target`
(`trailingSpace` is not copied). -/
def ElementBase.cloneFrom (target source : ElementBase) : ElementBase :=
  { target with
    text := source.text
    link := source.link
    tooltip := source.tooltip
    thumbnail := source.thumbnail
    thumbnailType := source.thumbnailType
    flags := source.flags }

/-- One `TextElement::Word`: the text and the cached width (initially
`-1`; `addToContainer` recomputes it unconditionally). -/
structure Word where
  text : QStr
  width : Int
deriving DecidableEq, Repr

/-- The subtype state of a `TextElement` / `SingleLineTextElement`:
message color, font style (both opaque tags) and the word list. -/
structure TextData where
  color : Nat
  style : Nat
  words : List Word
deriving Repr

/-- A nested `TextElement` owned by another element (`textElement_`). -/
structure TextSub where
  base : ElementBase
  data : TextData

/-- Mirrors the `TextElement(text, flags, color, style)` constructor:
split the text on spaces into words with uncomputed width `-1`. -/
def mkTextData (text : QStr) (color style : Nat) : TextData :=
  ⟨color, style, (splitOnSpace text).map (fun w => ⟨w, -1⟩)⟩

/-- A freshly constructed `TextElement` as a nested sub-element. -/
def mkTextSub (text : QStr) (flags : Nat) (color style : Nat) : TextSub :=
  ⟨ElementBase.mkFlags flags, mkTextData text color style⟩

/-- One layer of a `LayeredEmoteElement`: an emote pointer and the layer's
flag tag (`LayeredEmoteElement::Emote`). -/
structure LayerEmote where
  ptr : Nat
  kind : Nat
deriving DecidableEq, Repr

/-- The badge subtype (`BadgeElement` and its `Mod`/`Vip`/`Ffz`
subclasses, which differ only in the layout element they construct). -/
inductive BadgeKind where
  | plainBadge
  | modBadge
  | vipBadge
  | ffzBadge (color : Nat)
deriving DecidableEq, Repr

/-- The per-variant payload of a message element. -/
inductive Payload where
  | emptyEl
  | imageEl (img : Image)
  | circularImage (img : Image) (padding : Nat) (background : Nat)
  | emote (ptr : Nat) (textEl : TextSub)
  | layeredEmote (emotes : List LayerEmote) (textElementColor : Nat)
      (textEl : Option TextSub) (emoteTooltips : List QStr)
  | badge (ptr : Nat) (kind : BadgeKind)
  | textEl (d : TextData)
  | singleLineText (d : TextData)
  | timestamp (time : Nat) (format : QStr) (element : TextSub)
  | twitchModeration
  | linebreak
  | scalingImage (images : Nat → Image)
  | replyCurve

/-- A message element: base state plus subtype payload. -/
structure Element where
  base : ElementBase
  payload : Payload

/-! ## Text wrapping (`TextElement::addToContainer`) -/

/-- The `getTextLayoutElement` lambda: a text primitive carrying the
fragment, its width, the metrics line height, the trailing-space flag and
the element's link. -/
def mkTextPrim (m : Metrics) (base : ElementBase) (t : QStr) (w : Nat)
    (hasTrailing : Bool) : Prim :=
  Prim.text t w m.height hasTrailing base.link

/-- The character-level splitting loop of `TextElement::addToContainer`
(lines 695–725): walk the remaining units, treating a high surrogate
followed by another unit as one unit; whenever the accumulated run plus
the next unit would not fit, flush the run without trailing space and
break the line; the final run is flushed with the element's
trailing-space flag. `cur` is `text.mid(wordStart, i - wordStart)` and
`width` the accumulated width. -/
def splitChars (m : Metrics) (base : ElementBase) :
    Container → QStr → Nat → QStr → Container
  | c, cur, width, [] =>
      c.addNoBreak (mkTextPrim m base cur width base.trailingSpace)
  | c, cur, width, [u] =>
      let cw := m.advUnit u
      if ¬ c.fitsInLine (width + cw) then
        splitChars m base
          ((c.addNoBreak (mkTextPrim m base cur width false)).breakLine)
          [u] cw []
      else
        splitChars m base c (cur ++ [u]) (width + cw) []
  | c, cur, width, u :: v :: rest =>
      if isHighSurrogate u then
        let cw := m.advPair u v
        if ¬ c.fitsInLine (width + cw) then
          splitChars m base
            ((c.addNoBreak (mkTextPrim m base cur width false)).breakLine)
            [u, v] cw rest
        else
          splitChars m base c (cur ++ [u, v]) (width + cw) rest
      else
        let cw := m.advUnit u
        if ¬ c.fitsInLine (width + cw) then
          splitChars m base
            ((c.addNoBreak (mkTextPrim m base cur width false)).breakLine)
            [u] cw (v :: rest)
        else
          splitChars m base c (cur ++ [u]) (width + cw) (v :: rest)

/-- The per-word body of the `TextElement::addToContainer` loop: emit the
word if it fits on the current line; else break the line (unless already
at the start of one) and retry; else fall back to character-level
splitting. -/
def addTextWord (m : Metrics) (base : ElementBase) (c : Container)
    (w : QStr) : Container :=
  let width := hAdvance m w
  if c.fitsInLine width then
    c.addNoBreak (mkTextPrim m base w width base.trailingSpace)
  else if ¬ c.atStartOfLine then
    let c2 := c.breakLine
    if c2.fitsInLine width then
      c2.addNoBreak (mkTextPrim m base w width base.trailingSpace)
    else
      splitChars m base c2 [] 0 w
  else
    splitChars m base c [] 0 w

/-- Mirrors `TextElement::addToContainer`: if the render flags intersect
the element's flags, greedily wrap each word in order. -/
def textAddToContainer (env : Env) (base : ElementBase) (d : TextData)
    (c : Container) (renderFlags : Nat) : Container :=
  if flagsHasAny renderFlags base.flags then
    let m := env.metricsOf d.style c.scale
    d.words.foldl (fun acc w => addTextWord m base acc w.text) c
  else c

/-! ## Single-line text (`SingleLineTextElement::addToContainer`) -/

/-- The Unicode horizontal-ellipsis unit used by `QFontMetrics::elidedText`. -/
def ellipsisUnit : Nat := 0x2026

/-- The three-dot ellipsis literal `"..."` of
`SingleLineTextElement::addToContainer`. -/
def ellipsisDots : QStr := [0x2E, 0x2E, 0x2E]

/-- Modelled from the spec (Qt's `QFontMetrics::elidedText` is external
library code): keep the longest run of leading units that still leaves
room for the ellipsis unit within `w`, given `used` width already kept. -/
def elideKeep (m : Metrics) (w : Nat) : Nat → QStr → QStr
  | _, [] => []
  | used, u :: rest =>
      if used + m.advUnit u + m.advUnit ellipsisUnit ≤ w then
        u :: elideKeep m w (used + m.advUnit u) rest
      else []

/-- Modelled from the spec: right elision — text that fits is returned
unchanged; otherwise it is right-truncated and terminated with the
ellipsis unit. -/
def elideRight (m : Metrics) (s : QStr) (w : Nat) : QStr :=
  if hAdvance m s ≤ w then s else elideKeep m w 0 s ++ [ellipsisUnit]

/-- One parsed token of the `SingleLineTextElement::addToContainer` inner
loop: returns the updated container, the pending text, and whether the
token loop for the current word stops (the two `break` statements). -/
def slTok (env : Env) (m : Metrics) (base : ElementBase) (c : Container)
    (cur : QStr) : ParsedWord → Container × QStr × Bool
  | ParsedWord.str s =>
      let cur1 := (if cur.isEmpty then cur else cur ++ [0x20]) ++ s
      let cur2 := elideRight m cur1 c.remainingWidth
      (c, cur2, decide (cur2 ≠ cur1))
  | ParsedWord.emoteRef p =>
      let img := (env.emoteOf p).imageAt c.scale
      if img.isEmpty then (c, cur, false)
      else
        let curW := hAdvance m cur
        let eW := img.width * (env.emoteScale * c.scale)
        let eH := img.height * (env.emoteScale * c.scale)
        if ¬ c.fitsInLine (curW + eW) then
          (c, cur ++ ellipsisDots, true)
        else
          let c1 := c.addNoBreak (mkTextPrim m base cur curW false)
          let c2 := c1.addNoBreak (Prim.image ImageStyle.plain eW eH base.link)
          (c2, [], false)

/-- The token loop over one word's parse result, stopping early when a
token signalled a break. -/
def slToks (env : Env) (m : Metrics) (base : ElementBase) :
    Container → QStr → List ParsedWord → Container × QStr
  | c, cur, [] => (c, cur)
  | c, cur, t :: rest =>
      let r := slTok env m base c cur t
      if r.2.2 then (r.1, r.2.1) else slToks env m base r.1 r.2.1 rest

/-- Mirrors `SingleLineTextElement::addToContainer`: parse each word into
tokens, accumulate and elide pending text, interleave fitting emote
images, flush the trimmed remainder, and force exactly one line break. -/
def slAddToContainer (env : Env) (base : ElementBase) (d : TextData)
    (c : Container) (renderFlags : Nat) : Container :=
  if flagsHasAny renderFlags base.flags then
    let m := env.metricsOf d.style c.scale
    let r := d.words.foldl
      (fun acc w => slToks env m base acc.1 acc.2 (env.parse w.text)) (c, [])
    let c1 := r.1
    let cur := r.2
    let c2 :=
      if cur.isEmpty then c1
      else
        let t := trimmed cur
        c1.addNoBreak (mkTextPrim m base t (hAdvance m t) false)
    c2.breakLine
  else c

/-! ## Layered emotes -/

/-- Mirrors `LayeredEmoteElement::getCopyString`: the space-joined copy
strings of the layers, in order. -/
def layeredCopyString (env : Env) (emotes : List LayerEmote) : QStr :=
  joinSpace (emotes.map (fun e => (env.emoteOf e.ptr).copyString))

/-- Mirrors `LayeredEmoteElement::getCleanCopyString`, with the external
`TwitchEmotes::cleanUpEmoteCode` threaded as `clean`. -/
def layeredCleanCopyString (clean : QStr → QStr) (env : Env)
    (emotes : List LayerEmote) : QStr :=
  joinSpace (emotes.map (fun e => clean (env.emoteOf e.ptr).copyString))

/-- Mirrors `LayeredEmoteElement::updateTooltips`: for a non-empty layer
list, rebuild the fallback text element from the copy string and install
it as the tooltip; always rebuild the per-layer tooltip list. Returns the
updated base, text element and tooltip list. -/
def layeredUpdateTooltips (env : Env) (base : ElementBase) (color : Nat)
    (emotes : List LayerEmote) (oldTextEl : Option TextSub) :
    ElementBase × Option TextSub × List QStr :=
  let upd :=
    if ¬ emotes.isEmpty then
      let s := layeredCopyString env emotes
      ({ base with tooltip := s }, some (mkTextSub s flagMisc color 0))
    else (base, oldTextEl)
  (upd.1, upd.2, emotes.map (fun e => (env.emoteOf e.ptr).tooltip))

/-- Mirrors the `LayeredEmoteElement(emotes, flags, textElementColor)`
constructor, which ends by calling `updateTooltips`. -/
def mkLayeredEmoteElement (env : Env) (emotes : List LayerEmote)
    (flags : Nat) (color : Nat) : Element :=
  let r := layeredUpdateTooltips env (ElementBase.mkFlags flags) color emotes none
  ⟨r.1, Payload.layeredEmote emotes color r.2.1 r.2.2⟩

/-- Mirrors `LayeredEmoteElement::addEmoteLayer`: append the layer and
recompute tooltips. Identity on elements of any other payload. -/
def addEmoteLayer (env : Env) (el : Element) (e : LayerEmote) : Element :=
  match el.payload with
  | Payload.layeredEmote emotes color textEl _ =>
      let emotes2 := emotes ++ [e]
      let r := layeredUpdateTooltips env el.base color emotes2 textEl
      ⟨r.1, Payload.layeredEmote emotes2 color r.2.1 r.2.2⟩
  | _ => el

/-- Mirrors `LayeredEmoteElement::getLoadedImages`: resolve each layer at
the scale, skipping empty images. -/
def getLoadedImages (env : Env) (emotes : List LayerEmote) (scale : Nat) :
    List Image :=
  (emotes.map (fun e => (env.emoteOf e.ptr).imageAt scale)).filter
    (fun img => img.isEmpty = false)

/-- Mirrors the anonymous-namespace `getBoundingBoxSize`: the pixel-wise
maximum width and height over the images. -/
def getBoundingBoxSize (images : List Image) : Nat × Nat :=
  images.foldl (fun acc img => (max acc.1 img.width, max acc.2 img.height))
    (0, 0)

/-- The de-duplication functor state of
`LayeredEmoteElement::getUniqueEmotes`: keep a layer only when its emote
pointer has not been seen. -/
def getUniqueEmotesAux (seen : List Nat) : List LayerEmote → List LayerEmote
  | [] => []
  | e :: rest =>
      if seen.contains e.ptr then getUniqueEmotesAux seen rest
      else e :: getUniqueEmotesAux (e.ptr :: seen) rest

/-- Mirrors `LayeredEmoteElement::getUniqueEmotes`: layers de-duplicated
by emote pointer identity, preserving relative order. -/
def getUniqueEmotes (emotes : List LayerEmote) : List LayerEmote :=
  getUniqueEmotesAux [] emotes

/-! ## Timestamps -/

/-- Mirrors `TimestampElement::formatTime`: format the time with the
current global format setting and wrap it in a `TextElement` with the
`Timestamp` flag, system color and `ChatMedium` style (opaque tags 1). -/
def formatTime (env : Env) (time : Nat) : TextSub :=
  mkTextSub (env.localeFormat time env.timestampFormat) flagTimestamp 1 1

/-- Mirrors the `TimestampElement(time)` constructor: the cached format
string starts out as the default-constructed (empty) string; the cached
sub-element is formatted eagerly. -/
def mkTimestampElement (env : Env) (time : Nat) : Element :=
  ⟨ElementBase.mkFlags flagTimestamp, Payload.timestamp time [] (formatTime env time)⟩

/-! ## The addToContainer dispatch

Each variant's `addToContainer`, returning the updated element (only the
timestamp variant mutates itself) and the updated container. -/

/-- The background color `#34AE0A` of `ModBadgeElement`. -/
def modBadgeBackgroundColor : Nat := 0x34AE0A

/-- The layout element a badge subtype constructs for its image
(`makeImageLayoutElement` of `BadgeElement` and subclasses). -/
def badgePrim (kind : BadgeKind) (base : ElementBase) (w h : Nat) : Prim :=
  match kind with
  | BadgeKind.plainBadge => Prim.image ImageStyle.plain w h base.link
  | BadgeKind.modBadge =>
      Prim.image (ImageStyle.background modBadgeBackgroundColor) w h base.link
  | BadgeKind.vipBadge => Prim.image ImageStyle.plain w h base.link
  | BadgeKind.ffzBadge color =>
      Prim.image (ImageStyle.background color) w h base.link

/-- Mirrors `TwitchModerationElement::addToContainer`: one icon or
two-line text icon per configured moderation action, each linked to the
action's invocation string. -/
def moderationAddToContainer (env : Env) (c : Container) : Container :=
  let size := (c.scale * 16, c.scale * 16)
  env.moderationActions.foldl
    (fun acc action =>
      match action.imageOf with
      | some _ =>
          acc.addElement (Prim.image ImageStyle.plain size.1 size.2
            ⟨LinkType.userAction, action.action⟩)
      | none =>
          acc.addElement (Prim.textIcon action.line1 action.line2 size.1 size.2
            ⟨LinkType.userAction, action.action⟩))
    c

/-- Mirrors each variant's `addToContainer(container, flags)`. The
element is returned alongside the container because `TimestampElement`
updates its cached format and sub-element in place. -/
def Element.addToContainer (env : Env) (el : Element) (c : Container)
    (renderFlags : Nat) : Element × Container :=
  match el.payload with
  | Payload.emptyEl => (el, c)
  | Payload.imageEl img =>
      if flagsHasAny renderFlags el.base.flags then
        (el, c.addElement (Prim.image ImageStyle.plain (img.width * c.scale)
          (img.height * c.scale) el.base.link))
      else (el, c)
  | Payload.circularImage img padding background =>
      if flagsHasAny renderFlags el.base.flags then
        (el, c.addElement (Prim.image (ImageStyle.circleBackground padding background)
          (img.width * c.scale) (img.height * c.scale) el.base.link))
      else (el, c)
  | Payload.emote ptr sub =>
      if flagsHasAny renderFlags el.base.flags then
        if flagsHas renderFlags flagEmoteImages then
          let img := (env.emoteOf ptr).imageAt c.scale
          if img.isEmpty then (el, c)
          else
            let w := c.scale * img.width * env.emoteScale
            let h := c.scale * img.height * env.emoteScale
            (el, c.addElement (Prim.image ImageStyle.plain w h el.base.link))
        else
          (el, textAddToContainer env sub.base sub.data c flagMisc)
      else (el, c)
  | Payload.layeredEmote emotes _ textEl _ =>
      if flagsHasAny renderFlags el.base.flags then
        if flagsHas renderFlags flagEmoteImages then
          let images := getLoadedImages env emotes c.scale
          if images.isEmpty then (el, c)
          else
            let overall := env.emoteScale * c.scale
            let bb := getBoundingBoxSize images
            let largest := (bb.1 * overall, bb.2 * overall)
            let sizes := images.map
              (fun img => (img.width * overall, img.height * overall))
            (el, c.addElement (Prim.layeredImage sizes largest.1 largest.2
              el.base.link))
        else
          match textEl with
          | some sub => (el, textAddToContainer env sub.base sub.data c flagMisc)
          | none => (el, c)
      else (el, c)
  | Payload.badge ptr kind =>
      if flagsHasAny renderFlags el.base.flags then
        let img := (env.emoteOf ptr).imageAt c.scale
        if img.isEmpty then (el, c)
        else
          let w := c.scale * img.width
          let h := c.scale * img.height
          (el, c.addElement (badgePrim kind el.base w h))
      else (el, c)
  | Payload.textEl d => (el, textAddToContainer env el.base d c renderFlags)
  | Payload.singleLineText d => (el, slAddToContainer env el.base d c renderFlags)
  | Payload.timestamp time fmt sub =>
      if flagsHasAny renderFlags el.base.flags then
        let upd :=
          if env.timestampFormat ≠ fmt then
            (env.timestampFormat, formatTime env time)
          else (fmt, sub)
        let el2 : Element := ⟨el.base, Payload.timestamp time upd.1 upd.2⟩
        (el2, textAddToContainer env upd.2.base upd.2.data c renderFlags)
      else (el, c)
  | Payload.twitchModeration =>
      if flagsHas renderFlags flagModeratorTools then
        (el, moderationAddToContainer env c)
      else (el, c)
  | Payload.linebreak =>
      if flagsHasAny renderFlags el.base.flags then (el, c.breakLine)
      else (el, c)
  | Payload.scalingImage images =>
      if flagsHasAny renderFlags el.base.flags then
        let img := images c.scale
        if img.isEmpty then (el, c)
        else
          (el, c.addElement (Prim.image ImageStyle.plain (img.width * c.scale)
            (img.height * c.scale) el.base.link))
      else (el, c)
  | Payload.replyCurve =>
      if flagsHasAny renderFlags el.base.flags then
        (el, c.addElement (Prim.replyCurve (18 * c.scale)))
      else (el, c)

/-! ## Cloning and mutation -/

/-- Mirrors `TextElement::clone` applied to a nested sub-element:
construct from an empty string, replace the word list, then `cloneFrom`. -/
def cloneTextSub (sub : TextSub) : TextSub :=
  let el := mkTextSub [] sub.base.flags sub.data.color sub.data.style
  ⟨el.base.cloneFrom sub.base, { el.data with words := sub.data.words }⟩

/-- Mirrors each variant's `clone()`: run the variant's constructor on the
payload (sharing reference-counted resources), then `cloneFrom` the base
fields. -/
def Element.clone (env : Env) (el : Element) : Element :=
  match el.payload with
  | Payload.emptyEl =>
      ⟨(ElementBase.mkFlags flagNone).cloneFrom el.base, Payload.emptyEl⟩
  | Payload.imageEl img =>
      ⟨(ElementBase.mkFlags el.base.flags).cloneFrom el.base, Payload.imageEl img⟩
  | Payload.circularImage img padding background =>
      ⟨(ElementBase.mkFlags el.base.flags).cloneFrom el.base,
        Payload.circularImage img padding background⟩
  | Payload.emote ptr sub =>
      let ctorBase :=
        { ElementBase.mkFlags el.base.flags with
          tooltip := (env.emoteOf ptr).tooltip }
      ⟨ctorBase.cloneFrom el.base, Payload.emote ptr (cloneTextSub sub)⟩
  | Payload.layeredEmote emotes color _ _ =>
      let ctor := mkLayeredEmoteElement env emotes el.base.flags color
      ⟨ctor.base.cloneFrom el.base, ctor.payload⟩
  | Payload.badge ptr kind =>
      let ctorBase :=
        { ElementBase.mkFlags el.base.flags with
          tooltip := (env.emoteOf ptr).tooltip }
      ⟨ctorBase.cloneFrom el.base, Payload.badge ptr kind⟩
  | Payload.textEl d =>
      ⟨(ElementBase.mkFlags el.base.flags).cloneFrom el.base,
        Payload.textEl { mkTextData [] d.color d.style with words := d.words }⟩
  | Payload.singleLineText d =>
      ⟨(ElementBase.mkFlags el.base.flags).cloneFrom el.base,
        Payload.singleLineText
          { mkTextData [] d.color d.style with words := d.words }⟩
  | Payload.timestamp time _ _ =>
      let ctor := mkTimestampElement env time
      ⟨ctor.base.cloneFrom el.base, ctor.payload⟩
  | Payload.twitchModeration =>
      ⟨(ElementBase.mkFlags flagModeratorTools).cloneFrom el.base,
        Payload.twitchModeration⟩
  | Payload.linebreak =>
      ⟨(ElementBase.mkFlags el.base.flags).cloneFrom el.base, Payload.linebreak⟩
  | Payload.scalingImage images =>
      ⟨(ElementBase.mkFlags el.base.flags).cloneFrom el.base,
        Payload.scalingImage images⟩
  | Payload.replyCurve =>
      ⟨(ElementBase.mkFlags flagRepliedMessage).cloneFrom el.base,
        Payload.replyCurve⟩

/-- A mutation of an element through the base-class setters. -/
inductive Mutation where
  | addFlagsM (f : Nat)
  | setLinkM (l : Link)
  | setTooltipM (t : QStr)
  | setTextM (t : QStr)

/-- Apply one base-class setter (`addFlags`, `setLink`, `setTooltip`,
`setText`). -/
def applyMutation (el : Element) : Mutation → Element
  | Mutation.addFlagsM f =>
      ⟨{ el.base with flags := flagsSet el.base.flags f }, el.payload⟩
  | Mutation.setLinkM l => ⟨{ el.base with link := l }, el.payload⟩
  | Mutation.setTooltipM t => ⟨{ el.base with tooltip := t }, el.payload⟩
  | Mutation.setTextM t => ⟨{ el.base with text := t }, el.payload⟩

/-- An element store: the owned elements of a message, indexed by
position; cloning allocates a new slot, mutation updates one slot. -/
abbrev Store := List Element

/-- A placeholder element for out-of-range store reads. -/
def defaultElement : Element := ⟨ElementBase.mkFlags flagNone, Payload.emptyEl⟩

/-- Apply a sequence of setters to the element in slot `j`. -/
def mutateAt (s : Store) (j : Nat) (ms : List Mutation) : Store :=
  ms.foldl (fun acc mu => acc.set j (applyMutation (acc.getD j defaultElement) mu)) s

/-! ## UrlPaint (7TV paints) -/

/-- A pixmap computation, as a free term algebra over the operations
`UrlPaint::asBrush` performs. -/
inductive Pixmap where
  | source (id : Nat) (w h : Nat)
  | scaledToWidth (p : Pixmap) (w : Nat)
  | fill (w h : Nat) (color : Nat)
  | drawnOver (bg fg : Pixmap)
  | copyRect (p : Pixmap) (x y w h : Nat)
deriving DecidableEq, Repr

/-- The pixel size of a pixmap (`QPixmap::size`); scaling to a width
preserves the aspect ratio with integer division. -/
def Pixmap.sizeOf : Pixmap → Nat × Nat
  | Pixmap.source _ w h => (w, h)
  | Pixmap.scaledToWidth p w =>
      let s := p.sizeOf
      (w, if s.1 = 0 then 0 else s.2 * w / s.1)
  | Pixmap.fill w h _ => (w, h)
  | Pixmap.drawnOver bg _ => bg.sizeOf
  | Pixmap.copyRect _ _ _ w h => (w, h)

/-- A QBrush: either a solid color or a pixmap texture. -/
inductive Brush where
  | solid (color : Nat)
  | textured (p : Pixmap)
deriving DecidableEq, Repr

/-- The `UrlPaint` state at the time of an `asBrush` call: name, id, the
result of `image_->pixmapOrLoad()` (none while the download has not
finished), and the drop shadows. -/
structure UrlPaint where
  id : QStr
  name : QStr
  pixmapOrLoad : Option Pixmap
  dropShadows : List Nat

/-- Mirrors `UrlPaint::asBrush(userColor, drawingRect)`: with a loaded
pixmap, scale it to the rectangle width, compose it over a solid fill of
the user color, and crop to the rectangle; otherwise a solid brush of the
user color. -/
def UrlPaint.asBrush (paint : UrlPaint) (userColor : Nat)
    (rectW rectH : Nat) : Brush :=
  match paint.pixmapOrLoad with
  | some pm =>
      let pm1 := Pixmap.scaledToWidth pm rectW
      let ucp := Pixmap.fill pm1.sizeOf.1 pm1.sizeOf.2 userColor
      Brush.textured (Pixmap.copyRect (Pixmap.drawnOver ucp pm1) 0 0 rectW rectH)
  | none => Brush.solid userColor

/-! ## Observers used by the theorems -/

/-- The text content of a primitive (empty for non-text primitives). -/
def Prim.textContent : Prim → QStr
  | Prim.text s _ _ _ _ => s
  | _ => []

/-- Whether the primitive is a text fragment. -/
def Prim.isTextPrim : Prim → Bool
  | Prim.text _ _ _ _ _ => true
  | _ => false

/-- The trailing-space flag of a text primitive (false otherwise). -/
def Prim.trailingOf : Prim → Bool
  | Prim.text _ _ _ t _ => t
  | _ => false

/-- Concatenation of the text contents of a primitive stream: the
characters the stream displays, in order. -/
def textConcat (l : List Prim) : QStr :=
  (l.map Prim.textContent).flatten

/-- The widths of the character units of a string under the character
walk of the splitting loop (a high surrogate followed by another unit
counts as one unit). -/
def chunkWidths (m : Metrics) : QStr → List Nat
  | [] => []
  | [u] => [m.advUnit u]
  | u :: v :: rest =>
      if isHighSurrogate u then m.advPair u v :: chunkWidths m rest
      else m.advUnit u :: chunkWidths m (v :: rest)

/-- The construction invariant an element obtained from the variant
constructors satisfies: a `TwitchModerationElement` always carries the
`ModeratorTools` flag (its constructor sets it and `addFlags` only adds
flags). -/
def WfElement (el : Element) : Prop :=
  match el.payload with
  | Payload.twitchModeration => flagsHas el.base.flags flagModeratorTools = true
  | _ => True

/-- The per-layer tooltip list of a layered-emote element
(`getEmoteTooltips`); empty for other payloads. -/
def layeredTooltipsOf (el : Element) : List QStr :=
  match el.payload with
  | Payload.layeredEmote _ _ _ tts => tts
  | _ => []

/-- Stated from the spec sentence for the refinement proof of
`getUniqueEmotes`: keep each distinct emote identity exactly once, at its
first occurrence, preserving first-occurrence order. -/
def uniqueFirstSpec : List LayerEmote → List LayerEmote
  | [] => []
  | e :: rest => e :: uniqueFirstSpec (rest.filter (fun x => x.ptr != e.ptr))
termination_by l => l.length
decreasing_by
  simp only [List.length_cons]
  exact Nat.lt_succ_of_le (List.length_filter_le _ _)

/-- A small concrete environment used by witness instantiations. -/
def envW : Env where
  emoteOf := fun p =>
    if p = 0 then ⟨fun _ => ⟨3, 2, false⟩, [84, 84], [65]⟩
    else ⟨fun _ => ⟨0, 0, true⟩, [66], [67]⟩
  metricsOf := fun _ _ => ⟨fun _ => 1, fun _ _ => 2, 7⟩
  emoteScale := 1
  timestampFormat := [72]
  moderationActions := []
  parse := fun s => [ParsedWord.str s]
  localeFormat := fun t fmt => fmt ++ [48 + t % 10]

/-- An environment where an emote's copy string and tooltip differ. -/
def envC4 : Env where
  emoteOf := fun _ => ⟨fun _ => ⟨0, 0, true⟩, [66], [65]⟩
  metricsOf := fun _ _ => ⟨fun _ => 1, fun _ _ => 2, 1⟩
  emoteScale := 1
  timestampFormat := []
  moderationActions := []
  parse := fun _ => []
  localeFormat := fun _ _ => []

/-- A container evolved from another: same scale and line width, output
stream extended. -/
def StepOk (c1 c2 : Container) : Prop :=
  c2.scale = c1.scale ∧ c2.lineWidth = c1.lineWidth
    ∧ ∃ t, c2.out = c1.out ++ t

/-- A concrete element for the C8 witness: an image element whose flags
do not meet the render flags. -/
def elC8 : Element := ⟨ElementBase.mkFlags flagText, Payload.imageEl ⟨2, 3, false⟩⟩

/-- A concrete container. -/
def cW : Container := ⟨1, 10, 0, []⟩

/-- The cached formatted sub-element of a timestamp element (a dummy for
other payloads). -/
def cachedTimestampSub (el : Element) : TextSub :=
  match el.payload with
  | Payload.timestamp _ _ sub => sub
  | _ => ⟨ElementBase.mkFlags flagNone, ⟨0, 0, []⟩⟩

/-- A concrete text element with link, tooltip and text set, for the
clone-independence witness. -/
def elC6 : Element :=
  ⟨{ ElementBase.mkFlags flagText with
      link := ⟨LinkType.url, [104]⟩, tooltip := [116], text := [120] },
    Payload.textEl (mkTextData [65, 32, 66] 0 0)⟩

/-- The witness environment with a different timestamp format setting. -/
def envW2 : Env := { envW with timestampFormat := [75] }

/-- A concrete environment for the single-line-text scenario: words `"E"`
and `"F"` parse to emote references (a small and an over-wide emote), any
other word parses to itself as plain text. -/
def envC1 : Env where
  emoteOf := fun p =>
    if p = 0 then ⟨fun _ => ⟨3, 1, false⟩, [84], [69]⟩
    else ⟨fun _ => ⟨100, 1, false⟩, [85], [70]⟩
  metricsOf := fun _ _ => ⟨fun _ => 1, fun _ _ => 2, 7⟩
  emoteScale := 1
  timestampFormat := []
  moderationActions := []
  parse := fun s =>
    if s = [69] then [ParsedWord.emoteRef 0]
    else if s = [70] then [ParsedWord.emoteRef 1]
    else [ParsedWord.str s]
  localeFormat := fun _ _ => []

/-! # Theorems -/

/-- C10: for every `UrlPaint`, user color and drawing rectangle,
`asBrush` totally returns a brush, and when the paint's image pixmap is
not yet loaded it returns a solid brush of exactly the given user
color. -/
theorem urlPaint_asBrush_unloaded_solid (paint : UrlPaint) (userColor rectW rectH : Nat)
    (h : paint.pixmapOrLoad = none) :
    paint.asBrush userColor rectW rectH = Brush.solid userColor := by
  simp [UrlPaint.asBrush, h]

/-- Witness for C10 at a concrete unloaded paint. -/
theorem urlPaint_asBrush_unloaded_solid_witness :
    (UrlPaint.mk [1] [2] none []).pixmapOrLoad = none
      ∧ (UrlPaint.mk [1] [2] none []).asBrush 9 4 5 = Brush.solid 9 :=
  ⟨rfl, urlPaint_asBrush_unloaded_solid (UrlPaint.mk [1] [2] none []) 9 4 5 rfl⟩

/-! ## Unique emotes (C7) -/

/-- The de-duplication walk equals the spec's first-occurrence keeper on
the layers not yet seen. -/
theorem getUniqueEmotesAux_eq_spec (l : List LayerEmote) : ∀ seen : List Nat,
    getUniqueEmotesAux seen l
      = uniqueFirstSpec (l.filter (fun x => !(seen.contains x.ptr))) := by
  induction l with
  | nil => intro seen; simp [getUniqueEmotesAux, uniqueFirstSpec]
  | cons e rest ih =>
    intro seen
    by_cases h : seen.contains e.ptr
    · have hm : e.ptr ∈ seen := by simpa using h
      rw [getUniqueEmotesAux, if_pos h, ih seen]
      congr 1
      rw [List.filter_cons]
      simp [hm]
    · have hb : seen.contains e.ptr = false := by
        cases hx : seen.contains e.ptr
        · rfl
        · exact absurd hx h
      rw [getUniqueEmotesAux, if_neg h, ih (e.ptr :: seen)]
      conv_rhs => rw [List.filter_cons]
      rw [hb]
      simp only [Bool.not_false]
      rw [if_pos trivial]
      rw [show ∀ a l, uniqueFirstSpec (a :: l)
            = a :: uniqueFirstSpec (l.filter (fun x => x.ptr != a.ptr)) from
          fun a l => by rw [uniqueFirstSpec.eq_def]]
      congr 1
      rw [List.filter_filter]
      congr 1
      apply List.filter_congr
      intro x _
      simp only [List.contains_cons, Bool.not_or, bne]

/-- Pointer membership in the de-duplication walk: present iff present in
the input and not already seen. -/
theorem getUniqueEmotesAux_mem (l : List LayerEmote) : ∀ (seen : List Nat) (p : Nat),
    p ∈ (getUniqueEmotesAux seen l).map LayerEmote.ptr
      ↔ (p ∈ l.map LayerEmote.ptr ∧ seen.contains p = false) := by
  induction l with
  | nil => intro seen p; simp [getUniqueEmotesAux]
  | cons e rest ih =>
    intro seen p
    by_cases h : seen.contains e.ptr
    · rw [getUniqueEmotesAux, if_pos h]
      rw [ih seen p]
      simp only [List.map_cons, List.mem_cons]
      constructor
      · rintro ⟨hmem, hsn⟩; exact ⟨Or.inr hmem, hsn⟩
      · rintro ⟨hor, hsn⟩
        rcases hor with heq | hmem
        · subst heq; rw [h] at hsn; cases hsn
        · exact ⟨hmem, hsn⟩
    · rw [getUniqueEmotesAux, if_neg h]
      simp only [List.map_cons, List.mem_cons]
      rw [ih (e.ptr :: seen) p]
      simp only [List.contains_cons, Bool.or_eq_false_iff, beq_eq_false_iff_ne]
      constructor
      · rintro (heq | ⟨hmem, hne, hsn⟩)
        · subst heq
          exact ⟨Or.inl rfl, Bool.eq_false_iff.mpr (fun hx => h hx)⟩
        · exact ⟨Or.inr hmem, hsn⟩
      · rintro ⟨hor, hsn⟩
        rcases hor with heq | hmem
        · exact Or.inl heq
        · by_cases hpe : p = e.ptr
          · exact Or.inl hpe
          · exact Or.inr ⟨hmem, hpe, hsn⟩

/-- The pointers of the de-duplication walk are pairwise distinct. -/
theorem getUniqueEmotesAux_nodup (l : List LayerEmote) : ∀ seen : List Nat,
    ((getUniqueEmotesAux seen l).map LayerEmote.ptr).Nodup := by
  induction l with
  | nil => intro seen; simp [getUniqueEmotesAux]
  | cons e rest ih =>
    intro seen
    by_cases h : seen.contains e.ptr
    · rw [getUniqueEmotesAux, if_pos h]; exact ih seen
    · rw [getUniqueEmotesAux, if_neg h]
      simp only [List.map_cons, List.nodup_cons]
      refine ⟨fun hmem => ?_, ih (e.ptr :: seen)⟩
      rw [getUniqueEmotesAux_mem] at hmem
      have := hmem.2
      simp [List.contains_cons] at this

/-- C7: for every layer list, including lists with duplicate emote
identities, `getUniqueEmotes` equals the spec's first-occurrence keeper;
its pointer list has no duplicates; and a pointer occurs in the result
exactly when it occurs in the input. -/
theorem layered_getUniqueEmotes_first_occurrence (l : List LayerEmote) :
    getUniqueEmotes l = uniqueFirstSpec l
      ∧ ((getUniqueEmotes l).map LayerEmote.ptr).Nodup
      ∧ (∀ p, p ∈ (getUniqueEmotes l).map LayerEmote.ptr
            ↔ p ∈ l.map LayerEmote.ptr) := by
  refine ⟨?_, getUniqueEmotesAux_nodup l [], ?_⟩
  · rw [getUniqueEmotes, getUniqueEmotesAux_eq_spec l []]
    congr 1
    simp
  · intro p
    rw [getUniqueEmotes, getUniqueEmotesAux_mem l [] p]
    simp

/-! ## Layered-emote tooltips (C4) -/

/-- C4 counterexample: with a single layer whose emote has copy string
`"A"` and tooltip text `"B"`, the constructed element's tooltip is the
copy string, not the space-joined layer tooltips. -/
theorem layered_tooltip_counterexample :
    ¬ ((mkLayeredEmoteElement envC4 [⟨0, 0⟩] 1 0).base.tooltip
        = joinSpace (([⟨0, 0⟩] : List LayerEmote).map
            (fun e => (envC4.emoteOf e.ptr).tooltip))) := by
  decide

/-- C4 (amended): for every layered-emote element with a non-empty layer
set, after construction and after every `addEmoteLayer` call, the
element's tooltip equals the space-joined concatenation of each layer's
emote copy string in layer order, and the per-layer tooltip texts are
recorded, unjoined and in layer order, in the element's emote-tooltip
list. -/
theorem layered_tooltip_is_joined_copyString (env : Env) :
    (∀ (emotes : List LayerEmote) (flags color : Nat), emotes ≠ [] →
      (mkLayeredEmoteElement env emotes flags color).base.tooltip
          = layeredCopyString env emotes
        ∧ layeredTooltipsOf (mkLayeredEmoteElement env emotes flags color)
          = emotes.map (fun e => (env.emoteOf e.ptr).tooltip))
    ∧ (∀ (b : ElementBase) (emotes : List LayerEmote) (color : Nat)
        (textEl : Option TextSub) (tts : List QStr) (e : LayerEmote),
      (addEmoteLayer env ⟨b, Payload.layeredEmote emotes color textEl tts⟩ e).base.tooltip
          = layeredCopyString env (emotes ++ [e])
        ∧ layeredTooltipsOf
            (addEmoteLayer env ⟨b, Payload.layeredEmote emotes color textEl tts⟩ e)
          = (emotes ++ [e]).map (fun e => (env.emoteOf e.ptr).tooltip)) := by
  constructor
  · intro emotes flags color hne
    have hmt : emotes.isEmpty = false := by
      cases emotes
      · exact absurd rfl hne
      · rfl
    constructor
    · simp [mkLayeredEmoteElement, layeredUpdateTooltips, hmt]
    · simp [mkLayeredEmoteElement, layeredUpdateTooltips, layeredTooltipsOf, hmt]
  · intro b emotes color textEl tts e
    have hmt : (emotes ++ [e]).isEmpty = false := by
      cases emotes <;> rfl
    constructor
    · simp [addEmoteLayer, layeredUpdateTooltips, hmt]
    · simp [addEmoteLayer, layeredUpdateTooltips, layeredTooltipsOf, hmt]

/-- Witness for C4 at a concrete one-layer construction and a concrete
layer addition. -/
theorem layered_tooltip_is_joined_copyString_witness :
    ([⟨0, 0⟩] : List LayerEmote) ≠ []
      ∧ (mkLayeredEmoteElement envW [⟨0, 0⟩] 1 0).base.tooltip
          = layeredCopyString envW [⟨0, 0⟩]
      ∧ layeredTooltipsOf (mkLayeredEmoteElement envW [⟨0, 0⟩] 1 0)
          = ([⟨0, 0⟩] : List LayerEmote).map (fun e => (envW.emoteOf e.ptr).tooltip) :=
  ⟨by decide,
    ((layered_tooltip_is_joined_copyString envW).1 [⟨0, 0⟩] 1 0 (by decide)).1,
    ((layered_tooltip_is_joined_copyString envW).1 [⟨0, 0⟩] 1 0 (by decide)).2⟩

/-! ## Container-step lemmas

Every container operation preserves the scale and line width and only
appends to the primitive stream. -/

theorem stepOk_refl (c : Container) : StepOk c c :=
  ⟨rfl, rfl, [], by simp⟩

theorem stepOk_trans {c1 c2 c3 : Container} (h1 : StepOk c1 c2)
    (h2 : StepOk c2 c3) : StepOk c1 c3 := by
  obtain ⟨hs1, hl1, t1, ht1⟩ := h1
  obtain ⟨hs2, hl2, t2, ht2⟩ := h2
  exact ⟨hs2.trans hs1, hl2.trans hl1, t1 ++ t2, by rw [ht2, ht1, List.append_assoc]⟩

theorem stepOk_addNoBreak (c : Container) (p : Prim) :
    StepOk c (c.addNoBreak p) :=
  ⟨rfl, rfl, [p], rfl⟩

theorem stepOk_breakLine (c : Container) : StepOk c c.breakLine :=
  ⟨rfl, rfl, [Prim.brk], rfl⟩

theorem stepOk_addElement (c : Container) (p : Prim) :
    StepOk c (c.addElement p) := by
  rw [Container.addElement]
  by_cases h : c.fitsInLine p.widthOf
  · rw [if_pos h]; exact stepOk_addNoBreak c p
  · rw [if_neg h]
    exact stepOk_trans (stepOk_breakLine c) (stepOk_addNoBreak _ p)

theorem stepOk_foldl {α : Type} (f : Container → α → Container)
    (hf : ∀ c a, StepOk c (f c a)) (l : List α) :
    ∀ c, StepOk c (l.foldl f c) := by
  induction l with
  | nil => intro c; exact stepOk_refl c
  | cons a rest ih =>
    intro c
    exact stepOk_trans (hf c a) (ih (f c a))

theorem stepOk_splitChars (m : Metrics) (b : ElementBase) :
    ∀ (s : QStr) (c : Container) (cur : QStr) (width : Nat),
    StepOk c (splitChars m b c cur width s) := by
  suffices h : ∀ (n : Nat) (s : QStr), s.length ≤ n → ∀ (c : Container)
      (cur : QStr) (width : Nat), StepOk c (splitChars m b c cur width s) by
    intro s c cur width
    exact h s.length s le_rfl c cur width
  intro n
  induction n with
  | zero =>
    intro s hs c cur width
    have hnil : s = [] := List.eq_nil_of_length_eq_zero (Nat.le_zero.mp hs)
    subst hnil
    rw [splitChars]
    exact stepOk_addNoBreak _ _
  | succ n ih =>
    intro s hs c cur width
    match s with
    | [] =>
      rw [splitChars]
      exact stepOk_addNoBreak _ _
    | [u] =>
      simp only [splitChars]
      by_cases hf : c.fitsInLine (width + m.advUnit u) = true
      · rw [if_neg (not_not_intro hf)]
        exact stepOk_addNoBreak _ _
      · rw [if_pos hf]
        exact stepOk_trans
          (stepOk_trans (stepOk_addNoBreak c _) (stepOk_breakLine _))
          (stepOk_addNoBreak _ _)
    | u :: v :: rest =>
      have hr : rest.length ≤ n := by
        simp only [List.length_cons] at hs
        omega
      have hvr : (v :: rest).length ≤ n := by
        simp only [List.length_cons] at hs ⊢
        omega
      simp only [splitChars]
      by_cases hsur : isHighSurrogate u = true
      · rw [if_pos hsur]
        by_cases hf : c.fitsInLine (width + m.advPair u v) = true
        · rw [if_neg (not_not_intro hf)]
          exact ih rest hr c (cur ++ [u, v]) (width + m.advPair u v)
        · rw [if_pos hf]
          exact stepOk_trans
            (stepOk_trans (stepOk_addNoBreak c _) (stepOk_breakLine _))
            (ih rest hr _ [u, v] (m.advPair u v))
      · rw [if_neg hsur]
        by_cases hf : c.fitsInLine (width + m.advUnit u) = true
        · rw [if_neg (not_not_intro hf)]
          exact ih (v :: rest) hvr c (cur ++ [u]) (width + m.advUnit u)
        · rw [if_pos hf]
          exact stepOk_trans
            (stepOk_trans (stepOk_addNoBreak c _) (stepOk_breakLine _))
            (ih (v :: rest) hvr _ [u] (m.advUnit u))

theorem stepOk_addTextWord (m : Metrics) (b : ElementBase) (c : Container)
    (w : QStr) : StepOk c (addTextWord m b c w) := by
  simp only [addTextWord]
  by_cases h1 : c.fitsInLine (hAdvance m w) = true
  · rw [if_pos h1]
    exact stepOk_addNoBreak c _
  · rw [if_neg h1]
    by_cases h2 : c.atStartOfLine = true
    · rw [if_neg (not_not_intro h2)]
      exact stepOk_splitChars m b w c [] 0
    · rw [if_pos h2]
      by_cases h3 : (c.breakLine).fitsInLine (hAdvance m w) = true
      · rw [if_pos h3]
        exact stepOk_trans (stepOk_breakLine c) (stepOk_addNoBreak _ _)
      · rw [if_neg h3]
        exact stepOk_trans (stepOk_breakLine c)
          (stepOk_splitChars m b w _ [] 0)

theorem stepOk_textAdd (env : Env) (b : ElementBase) (d : TextData)
    (c : Container) (renderFlags : Nat) :
    StepOk c (textAddToContainer env b d c renderFlags) := by
  rw [textAddToContainer]
  by_cases h : flagsHasAny renderFlags b.flags = true
  · rw [if_pos h]
    exact stepOk_foldl _
      (fun c2 w => stepOk_addTextWord _ b c2 w.text) d.words c
  · rw [if_neg h]
    exact stepOk_refl c

theorem stepOk_slTok (env : Env) (m : Metrics) (b : ElementBase)
    (c : Container) (cur : QStr) (t : ParsedWord) :
    StepOk c (slTok env m b c cur t).1 := by
  cases t with
  | str s => exact stepOk_refl c
  | emoteRef p =>
    simp only [slTok]
    by_cases he : ((env.emoteOf p).imageAt c.scale).isEmpty = true
    · rw [if_pos he]
      exact stepOk_refl c
    · rw [if_neg he]
      by_cases hf : c.fitsInLine (hAdvance m cur
          + ((env.emoteOf p).imageAt c.scale).width * (env.emoteScale * c.scale)) = true
      · rw [if_neg (not_not_intro hf)]
        exact stepOk_trans (stepOk_addNoBreak c _) (stepOk_addNoBreak _ _)
      · rw [if_pos hf]
        exact stepOk_refl c

theorem stepOk_slToks (env : Env) (m : Metrics) (b : ElementBase) :
    ∀ (toks : List ParsedWord) (c : Container) (cur : QStr),
    StepOk c (slToks env m b c cur toks).1 := by
  intro toks
  induction toks with
  | nil => intro c cur; exact stepOk_refl c
  | cons t rest ih =>
    intro c cur
    rw [slToks]
    by_cases hstop : (slTok env m b c cur t).2.2 = true
    · rw [if_pos hstop]
      exact stepOk_slTok env m b c cur t
    · rw [if_neg hstop]
      exact stepOk_trans (stepOk_slTok env m b c cur t)
        (ih (slTok env m b c cur t).1 (slTok env m b c cur t).2.1)

theorem stepOk_slWordsFold (env : Env) (m : Metrics) (b : ElementBase) :
    ∀ (ws : List Word) (acc : Container × QStr),
    StepOk acc.1
      (ws.foldl (fun acc w => slToks env m b acc.1 acc.2 (env.parse w.text)) acc).1 := by
  intro ws
  induction ws with
  | nil => intro acc; exact stepOk_refl acc.1
  | cons w rest ih =>
    intro acc
    rw [List.foldl_cons]
    exact stepOk_trans (stepOk_slToks env m b (env.parse w.text) acc.1 acc.2)
      (ih (slToks env m b acc.1 acc.2 (env.parse w.text)))

theorem stepOk_slAdd (env : Env) (b : ElementBase) (d : TextData)
    (c : Container) (renderFlags : Nat) :
    StepOk c (slAddToContainer env b d c renderFlags) := by
  by_cases h : flagsHasAny renderFlags b.flags = true
  · simp only [slAddToContainer, if_pos h]
    have hmid := stepOk_slWordsFold env (env.metricsOf d.style c.scale) b
      d.words (c, [])
    refine stepOk_trans hmid ?_
    by_cases hcur : (d.words.foldl
        (fun acc w => slToks env (env.metricsOf d.style c.scale) b acc.1 acc.2
          (env.parse w.text)) (c, [])).2.isEmpty = true
    · rw [if_pos hcur]
      exact stepOk_breakLine _
    · rw [if_neg hcur]
      exact stepOk_trans (stepOk_addNoBreak _ _) (stepOk_breakLine _)
  · simp only [slAddToContainer, if_neg h]
    exact stepOk_refl c

theorem stepOk_moderation (env : Env) (c : Container) :
    StepOk c (moderationAddToContainer env c) := by
  rw [moderationAddToContainer]
  apply stepOk_foldl
  intro c2 action
  cases action.imageOf
  · exact stepOk_addElement c2 _
  · exact stepOk_addElement c2 _

/-- Any element's `addToContainer` only appends primitives and preserves
the container's scale and line width. -/
theorem stepOk_addToContainer (env : Env) (el : Element) (c : Container)
    (renderFlags : Nat) :
    StepOk c (Element.addToContainer env el c renderFlags).2 := by
  obtain ⟨b, p⟩ := el
  cases p with
  | emptyEl => exact stepOk_refl c
  | imageEl img =>
    simp only [Element.addToContainer]
    split
    · exact stepOk_addElement c _
    · exact stepOk_refl c
  | circularImage img padding background =>
    simp only [Element.addToContainer]
    split
    · exact stepOk_addElement c _
    · exact stepOk_refl c
  | emote ptr sub =>
    simp only [Element.addToContainer]
    split
    · split
      · split
        · exact stepOk_refl c
        · exact stepOk_addElement c _
      · exact stepOk_textAdd env sub.base sub.data c flagMisc
    · exact stepOk_refl c
  | layeredEmote emotes color textEl tts =>
    simp only [Element.addToContainer]
    split
    · split
      · split
        · exact stepOk_refl c
        · exact stepOk_addElement c _
      · split
        · exact stepOk_textAdd env _ _ c flagMisc
        · exact stepOk_refl c
    · exact stepOk_refl c
  | badge ptr kind =>
    simp only [Element.addToContainer]
    split
    · split
      · exact stepOk_refl c
      · exact stepOk_addElement c _
    · exact stepOk_refl c
  | textEl d => exact stepOk_textAdd env b d c renderFlags
  | singleLineText d => exact stepOk_slAdd env b d c renderFlags
  | timestamp time fmt sub =>
    simp only [Element.addToContainer]
    split
    · exact stepOk_textAdd env _ _ c renderFlags
    · exact stepOk_refl c
  | twitchModeration =>
    simp only [Element.addToContainer]
    split
    · exact stepOk_moderation env c
    · exact stepOk_refl c
  | linebreak =>
    simp only [Element.addToContainer]
    split
    · exact stepOk_breakLine c
    · exact stepOk_refl c
  | scalingImage images =>
    simp only [Element.addToContainer]
    split
    · split
      · exact stepOk_refl c
      · exact stepOk_addElement c _
    · exact stepOk_refl c
  | replyCurve =>
    simp only [Element.addToContainer]
    split
    · exact stepOk_addElement c _
    · exact stepOk_refl c

/-! ## The flag gate (C8) -/

/-- If two flag sets are disjoint and `b` contains the non-empty flag
`f`, then `a` does not contain `f`. -/
theorem flagsHas_of_disjoint (a b f : Nat) (hf : f ≠ 0)
    (hab : flagsHasAny a b = false) (hbf : flagsHas b f = true) :
    flagsHas a f = false := by
  have h0 : a.land b = 0 := by
    have h1 := of_decide_eq_false hab
    exact not_not.mp h1
  have hb : b.land f = f := of_decide_eq_true hbf
  have hzero : a.land f = 0 := by
    calc a.land f = a.land (b.land f) := by rw [hb]
    _ = (a.land b).land f := (Nat.and_assoc a b f).symm
    _ = 0 := by rw [h0]; exact Nat.zero_and f
  rw [flagsHas, hzero]
  exact decide_eq_false (fun hh => hf hh.symm)

/-- C8: for every element variant (satisfying the construction
invariant), when the render flags do not intersect the element's own
flags, `addToContainer` is a no-op returning the element and container
unchanged; and in all cases it only appends zero or more primitives to
the container's stream. -/
theorem addToContainer_flag_gate (env : Env) (el : Element) (c : Container)
    (renderFlags : Nat) (hwf : WfElement el) :
    (flagsHasAny renderFlags el.base.flags = false →
      Element.addToContainer env el c renderFlags = (el, c))
    ∧ (∃ t, (Element.addToContainer env el c renderFlags).2.out = c.out ++ t) := by
  refine ⟨?_, (stepOk_addToContainer env el c renderFlags).2.2⟩
  intro h
  obtain ⟨b, p⟩ := el
  cases p with
  | emptyEl => rfl
  | imageEl img => simp [Element.addToContainer, h]
  | circularImage img padding background => simp [Element.addToContainer, h]
  | emote ptr sub => simp [Element.addToContainer, h]
  | layeredEmote emotes color textEl tts => simp [Element.addToContainer, h]
  | badge ptr kind => simp [Element.addToContainer, h]
  | textEl d => simp [Element.addToContainer, textAddToContainer, h]
  | singleLineText d => simp [Element.addToContainer, slAddToContainer, h]
  | timestamp time fmt sub => simp [Element.addToContainer, h]
  | twitchModeration =>
    have hmt : flagsHas renderFlags flagModeratorTools = false :=
      flagsHas_of_disjoint renderFlags b.flags flagModeratorTools
        (by decide) h hwf
    simp [Element.addToContainer, hmt]
  | linebreak => simp [Element.addToContainer, h]
  | scalingImage images => simp [Element.addToContainer, h]
  | replyCurve => simp [Element.addToContainer, h]

/-- Witness for C8: at a concrete image element with flags `Text` and
render flags `Misc`, the call is a no-op. -/
theorem addToContainer_flag_gate_witness :
    WfElement elC8
      ∧ flagsHasAny flagMisc elC8.base.flags = false
      ∧ Element.addToContainer envW elC8 cW flagMisc = (elC8, cW) := by
  have hwf : WfElement elC8 := by simp [WfElement, elC8]
  refine ⟨hwf, by decide, ?_⟩
  exact (addToContainer_flag_gate envW elC8 cW flagMisc hwf).1 (by decide)

/-! ## Empty-image handling (C9) -/

/-- C9: for emote, badge and scaling-image elements, an empty image
sentinel at the current scale makes `addToContainer` emit nothing and
leave the container unchanged (the model is total, so the call returns
normally); for layered emotes, a layer with an empty image is skipped by
`getLoadedImages` and an all-empty layer set emits nothing. -/
theorem empty_image_silent_skip :
    (∀ (env : Env) (b : ElementBase) (ptr : Nat) (sub : TextSub)
        (c : Container) (renderFlags : Nat),
      flagsHasAny renderFlags b.flags = true →
      flagsHas renderFlags flagEmoteImages = true →
      ((env.emoteOf ptr).imageAt c.scale).isEmpty = true →
      Element.addToContainer env ⟨b, Payload.emote ptr sub⟩ c renderFlags
        = (⟨b, Payload.emote ptr sub⟩, c))
    ∧ (∀ (env : Env) (b : ElementBase) (ptr : Nat) (kind : BadgeKind)
        (c : Container) (renderFlags : Nat),
      flagsHasAny renderFlags b.flags = true →
      ((env.emoteOf ptr).imageAt c.scale).isEmpty = true →
      Element.addToContainer env ⟨b, Payload.badge ptr kind⟩ c renderFlags
        = (⟨b, Payload.badge ptr kind⟩, c))
    ∧ (∀ (env : Env) (b : ElementBase) (images : Nat → Image)
        (c : Container) (renderFlags : Nat),
      flagsHasAny renderFlags b.flags = true →
      (images c.scale).isEmpty = true →
      Element.addToContainer env ⟨b, Payload.scalingImage images⟩ c renderFlags
        = (⟨b, Payload.scalingImage images⟩, c))
    ∧ (∀ (env : Env) (e : LayerEmote) (rest : List LayerEmote) (scale : Nat),
      ((env.emoteOf e.ptr).imageAt scale).isEmpty = true →
      getLoadedImages env (e :: rest) scale = getLoadedImages env rest scale)
    ∧ (∀ (env : Env) (b : ElementBase) (emotes : List LayerEmote)
        (color : Nat) (textEl : Option TextSub) (tts : List QStr)
        (c : Container) (renderFlags : Nat),
      flagsHasAny renderFlags b.flags = true →
      flagsHas renderFlags flagEmoteImages = true →
      (∀ e ∈ emotes, ((env.emoteOf e.ptr).imageAt c.scale).isEmpty = true) →
      Element.addToContainer env
          ⟨b, Payload.layeredEmote emotes color textEl tts⟩ c renderFlags
        = (⟨b, Payload.layeredEmote emotes color textEl tts⟩, c)) := by
  refine ⟨?_, ?_, ?_, ?_, ?_⟩
  · intro env b ptr sub c renderFlags h1 h2 h3
    simp [Element.addToContainer, h1, h2, h3]
  · intro env b ptr kind c renderFlags h1 h3
    simp [Element.addToContainer, h1, h3]
  · intro env b images c renderFlags h1 h3
    simp [Element.addToContainer, h1, h3]
  · intro env e rest scale h3
    simp [getLoadedImages, h3]
  · intro env b emotes color textEl tts c renderFlags h1 h2 hall
    have hldd : getLoadedImages env emotes c.scale = [] := by
      rw [getLoadedImages]
      rw [List.filter_eq_nil_iff]
      intro img hmem
      rw [List.mem_map] at hmem
      obtain ⟨e, hmem, rfl⟩ := hmem
      simp [hall e hmem]
    simp [Element.addToContainer, h1, h2, hldd]

/-- Witness for C9: a badge whose emote image is the empty sentinel at
scale 1 emits nothing into a concrete container. -/
theorem empty_image_silent_skip_witness :
    flagsHasAny flagMisc (ElementBase.mkFlags flagMisc).flags = true
      ∧ ((envW.emoteOf 5).imageAt cW.scale).isEmpty = true
      ∧ Element.addToContainer envW
          ⟨ElementBase.mkFlags flagMisc, Payload.badge 5 BadgeKind.plainBadge⟩
          cW flagMisc
        = (⟨ElementBase.mkFlags flagMisc, Payload.badge 5 BadgeKind.plainBadge⟩, cW) :=
  ⟨by decide, by decide,
    empty_image_silent_skip.2.1 envW (ElementBase.mkFlags flagMisc) 5
      BadgeKind.plainBadge cW flagMisc (by decide) (by decide)⟩

/-! ## Clone independence (C6) -/

/-- Every variant's `clone` copies the base flags, text, link, tooltip
and thumbnail (all clones end in `cloneFrom`). -/
theorem clone_preserves_base (env : Env) (el : Element) :
    (Element.clone env el).base.flags = el.base.flags
      ∧ (Element.clone env el).base.text = el.base.text
      ∧ (Element.clone env el).base.link = el.base.link
      ∧ (Element.clone env el).base.tooltip = el.base.tooltip
      ∧ (Element.clone env el).base.thumbnail = el.base.thumbnail := by
  obtain ⟨b, p⟩ := el
  cases p <;>
    simp [Element.clone, ElementBase.cloneFrom, mkLayeredEmoteElement,
      mkTimestampElement]

/-- Mutating one store slot leaves every other slot unchanged. -/
theorem mutateAt_getElem?_ne (ms : List Mutation) : ∀ (s : Store) (i j : Nat),
    i ≠ j → (mutateAt s j ms)[i]? = s[i]? := by
  induction ms with
  | nil => intro s i j _; rfl
  | cons mu rest ih =>
    intro s i j h
    have hstep : mutateAt s j (mu :: rest)
        = mutateAt (s.set j (applyMutation (s.getD j defaultElement) mu)) j rest := by
      simp [mutateAt]
    rw [hstep, ih _ i j h, List.getElem?_set_ne (fun hji => h hji.symm)]

/-- C6: cloning the element in slot `i` into a fresh slot yields a copy
with equal flags, text, link, tooltip and thumbnail, and any sequence of
`addFlags`/`setLink`/`setTooltip`/`setText` mutations applied to the
clone's slot leaves the original slot unchanged. -/
theorem clone_mutation_independence (env : Env) (s : Store) (i : Nat)
    (h : i < s.length) (ms : List Mutation) :
    ((Element.clone env s[i]).base.flags = s[i].base.flags
      ∧ (Element.clone env s[i]).base.text = s[i].base.text
      ∧ (Element.clone env s[i]).base.link = s[i].base.link
      ∧ (Element.clone env s[i]).base.tooltip = s[i].base.tooltip
      ∧ (Element.clone env s[i]).base.thumbnail = s[i].base.thumbnail)
    ∧ (mutateAt (s ++ [Element.clone env s[i]]) s.length ms)[i]? = some s[i] := by
  refine ⟨clone_preserves_base env _, ?_⟩
  rw [mutateAt_getElem?_ne ms _ i s.length (Nat.ne_of_lt h),
    List.getElem?_append_left h]
  exact List.getElem?_eq_getElem h

/-- Witness for C6: one concrete element, cloned and mutated through all
four setters; the original slot still holds the original element. -/
theorem clone_mutation_independence_witness :
    0 < [elC6].length
      ∧ (Element.clone envW [elC6][0]).base.flags = [elC6][0].base.flags
      ∧ (mutateAt ([elC6] ++ [Element.clone envW [elC6][0]]) [elC6].length
          [Mutation.addFlagsM 4, Mutation.setLinkM Link.noLink,
            Mutation.setTooltipM [], Mutation.setTextM []])[0]?
        = some [elC6][0] :=
  ⟨by decide,
    (clone_mutation_independence envW [elC6] 0 (by decide)
      [Mutation.addFlagsM 4, Mutation.setLinkM Link.noLink,
        Mutation.setTooltipM [], Mutation.setTextM []]).1.1,
    (clone_mutation_independence envW [elC6] 0 (by decide)
      [Mutation.addFlagsM 4, Mutation.setLinkM Link.noLink,
        Mutation.setTooltipM [], Mutation.setTextM []]).2⟩

/-! ## Timestamp caching (C5) -/

/-- C5: rendering a timestamp element twice: if the global format setting
changed between the renders, the second render regenerates the cached
sub-element from the new format and emits its rendering; if it did not
change, the second render leaves the element (its cached format and
sub-element) unchanged and delegates to the cached sub-element. -/
theorem timestamp_format_cache (env1 env2 : Env) (b : ElementBase)
    (time : Nat) (fmt : QStr) (sub : TextSub) (c1 c2 : Container)
    (renderFlags : Nat)
    (hflags : flagsHasAny renderFlags b.flags = true) :
    (env2.timestampFormat ≠ env1.timestampFormat →
      Element.addToContainer env2
          (Element.addToContainer env1 ⟨b, Payload.timestamp time fmt sub⟩
            c1 renderFlags).1 c2 renderFlags
        = (⟨b, Payload.timestamp time env2.timestampFormat (formatTime env2 time)⟩,
            textAddToContainer env2 (formatTime env2 time).base
              (formatTime env2 time).data c2 renderFlags))
    ∧ (env2.timestampFormat = env1.timestampFormat →
      (Element.addToContainer env2
          (Element.addToContainer env1 ⟨b, Payload.timestamp time fmt sub⟩
            c1 renderFlags).1 c2 renderFlags).1
        = (Element.addToContainer env1 ⟨b, Payload.timestamp time fmt sub⟩
            c1 renderFlags).1
      ∧ (Element.addToContainer env2
          (Element.addToContainer env1 ⟨b, Payload.timestamp time fmt sub⟩
            c1 renderFlags).1 c2 renderFlags).2
        = textAddToContainer env2
            (cachedTimestampSub
              (Element.addToContainer env1 ⟨b, Payload.timestamp time fmt sub⟩
                c1 renderFlags).1).base
            (cachedTimestampSub
              (Element.addToContainer env1 ⟨b, Payload.timestamp time fmt sub⟩
                c1 renderFlags).1).data c2 renderFlags) := by
  have hr1 : (Element.addToContainer env1 ⟨b, Payload.timestamp time fmt sub⟩
      c1 renderFlags).1
      = ⟨b, Payload.timestamp time env1.timestampFormat
          (if env1.timestampFormat = fmt then sub else formatTime env1 time)⟩ := by
    simp only [Element.addToContainer, if_pos hflags]
    by_cases hf : env1.timestampFormat = fmt
    · rw [if_neg (not_not_intro hf), if_pos hf, hf]
    · rw [if_pos hf, if_neg hf]
  constructor
  · intro hne
    rw [hr1]
    simp only [Element.addToContainer, if_pos hflags, if_pos hne]
  · intro heq
    rw [hr1]
    constructor
    · simp only [Element.addToContainer, if_pos hflags, if_neg (not_not_intro heq)]
    · simp only [Element.addToContainer, if_pos hflags,
        if_neg (not_not_intro heq), cachedTimestampSub]

/-- Witness for C5: a concrete timestamp element rendered under a changed
and under an unchanged format setting. -/
theorem timestamp_format_cache_witness :
    flagsHasAny flagTimestamp (ElementBase.mkFlags flagTimestamp).flags = true
      ∧ envW2.timestampFormat ≠ envW.timestampFormat
      ∧ Element.addToContainer envW2
          (Element.addToContainer envW
            ⟨ElementBase.mkFlags flagTimestamp,
              Payload.timestamp 3 [] (formatTime envW 3)⟩ cW flagTimestamp).1
          cW flagTimestamp
        = (⟨ElementBase.mkFlags flagTimestamp,
              Payload.timestamp 3 envW2.timestampFormat (formatTime envW2 3)⟩,
            textAddToContainer envW2 (formatTime envW2 3).base
              (formatTime envW2 3).data cW flagTimestamp)
      ∧ (Element.addToContainer envW
          (Element.addToContainer envW
            ⟨ElementBase.mkFlags flagTimestamp,
              Payload.timestamp 3 [] (formatTime envW 3)⟩ cW flagTimestamp).1
          cW flagTimestamp).1
        = (Element.addToContainer envW
            ⟨ElementBase.mkFlags flagTimestamp,
              Payload.timestamp 3 [] (formatTime envW 3)⟩ cW flagTimestamp).1 :=
  ⟨by decide, by decide,
    (timestamp_format_cache envW envW2 (ElementBase.mkFlags flagTimestamp) 3 []
      (formatTime envW 3) cW cW flagTimestamp (by decide)).1 (by decide),
    ((timestamp_format_cache envW envW (ElementBase.mkFlags flagTimestamp) 3 []
      (formatTime envW 3) cW cW flagTimestamp (by decide)).2 rfl).1⟩

/-! ## Text wrapping (C2, C3) -/

theorem hAdvance_cons_of_not_high (m : Metrics) (u : Nat)
    (h : isHighSurrogate u = false) :
    ∀ t, hAdvance m (u :: t) = m.advUnit u + hAdvance m t
  | [] => by simp [hAdvance]
  | v :: t => by simp [hAdvance, h]

theorem hAdvance_cons_cons_of_high (m : Metrics) (u v : Nat)
    (h : isHighSurrogate u = true) (t : QStr) :
    hAdvance m (u :: v :: t) = m.advPair u v + hAdvance m t := by
  simp [hAdvance, h]

theorem textConcat_append (a b : List Prim) :
    textConcat (a ++ b) = textConcat a ++ textConcat b := by
  simp [textConcat]

/-- The full specification of the character-splitting loop at a line
start: the output is extended by fragments whose recorded widths are at
most the line width and equal the measured advance of their content, and
whose contents concatenate to the pending run plus the remaining
units. -/
theorem splitChars_spec (m : Metrics) (b : ElementBase) :
    ∀ (s : QStr) (c : Container) (cur : QStr) (width : Nat),
    c.x = 0 →
    width ≤ c.lineWidth →
    (∀ cw ∈ chunkWidths m s, cw ≤ c.lineWidth) →
    (∀ t, hAdvance m (cur ++ t) = width + hAdvance m t) →
    ∃ new, (splitChars m b c cur width s).out = c.out ++ new
      ∧ (∀ p ∈ new, p.widthOf ≤ c.lineWidth)
      ∧ (∀ p ∈ new, ∀ t w hp tr lk, p = Prim.text t w hp tr lk
          → w = hAdvance m t)
      ∧ textConcat new = cur ++ s := by
  suffices hfuel : ∀ (n : Nat) (s : QStr), s.length ≤ n →
      ∀ (c : Container) (cur : QStr) (width : Nat),
      c.x = 0 → width ≤ c.lineWidth →
      (∀ cw ∈ chunkWidths m s, cw ≤ c.lineWidth) →
      (∀ t, hAdvance m (cur ++ t) = width + hAdvance m t) →
      ∃ new, (splitChars m b c cur width s).out = c.out ++ new
        ∧ (∀ p ∈ new, p.widthOf ≤ c.lineWidth)
        ∧ (∀ p ∈ new, ∀ t w hp tr lk, p = Prim.text t w hp tr lk
            → w = hAdvance m t)
        ∧ textConcat new = cur ++ s by
    intro s c cur width hx hw hck hcur
    exact hfuel s.length s le_rfl c cur width hx hw hck hcur
  intro n
  induction n with
  | zero =>
    intro s hs c cur width hx hw hck hcur
    have hnil : s = [] := List.eq_nil_of_length_eq_zero (Nat.le_zero.mp hs)
    subst hnil
    rw [splitChars]
    refine ⟨[mkTextPrim m b cur width b.trailingSpace], rfl, ?_, ?_, ?_⟩
    · intro p hp
      rw [List.mem_singleton] at hp
      subst hp
      exact hw
    · intro p hp t w hp2 tr lk he
      rw [List.mem_singleton] at hp
      subst hp
      cases he
      have := hcur []
      simpa using this.symm
    · simp [textConcat, mkTextPrim, Prim.textContent]
  | succ n ih =>
    intro s hs c cur width hx hw hck hcur
    match s with
    | [] =>
      rw [splitChars]
      refine ⟨[mkTextPrim m b cur width b.trailingSpace], rfl, ?_, ?_, ?_⟩
      · intro p hp
        rw [List.mem_singleton] at hp
        subst hp
        exact hw
      · intro p hp t w hp2 tr lk he
        rw [List.mem_singleton] at hp
        subst hp
        cases he
        have := hcur []
        simpa using this.symm
      · simp [textConcat, mkTextPrim, Prim.textContent]
    | [u] =>
      have hcw : m.advUnit u ≤ c.lineWidth := by
        refine hck (m.advUnit u) ?_
        rw [chunkWidths]
        exact List.mem_singleton_self _
      simp only [splitChars]
      by_cases hf : c.fitsInLine (width + m.advUnit u) = true
      · rw [if_neg (not_not_intro hf)]
        refine ⟨[mkTextPrim m b (cur ++ [u]) (width + m.advUnit u)
          b.trailingSpace], rfl, ?_, ?_, ?_⟩
        · intro p hp
          rw [List.mem_singleton] at hp
          subst hp
          have := of_decide_eq_true hf
          rw [hx] at this
          simpa using this
        · intro p hp t w hp2 tr lk he
          rw [List.mem_singleton] at hp
          subst hp
          cases he
          have := hcur [u]
          rw [this]
          simp [hAdvance]
        · simp [textConcat, mkTextPrim, Prim.textContent]
      · rw [if_pos hf]
        refine ⟨[mkTextPrim m b cur width false, Prim.brk,
          mkTextPrim m b [u] (m.advUnit u) b.trailingSpace], ?_, ?_, ?_, ?_⟩
        · simp [Container.addNoBreak, Container.breakLine]
        · intro p hp
          simp only [List.mem_cons, List.not_mem_nil, or_false] at hp
          rcases hp with rfl | rfl | rfl
          · exact hw
          · exact Nat.zero_le _
          · exact hcw
        · intro p hp t w hp2 tr lk he
          simp only [List.mem_cons, List.not_mem_nil, or_false] at hp
          rcases hp with rfl | rfl | rfl
          · cases he
            have := hcur []
            simpa using this.symm
          · cases he
          · cases he
            simp [hAdvance]
        · simp [textConcat, mkTextPrim, Prim.textContent]
    | u :: v :: rest =>
      have hr : rest.length ≤ n := by
        simp only [List.length_cons] at hs
        omega
      have hvr : (v :: rest).length ≤ n := by
        simp only [List.length_cons] at hs ⊢
        omega
      simp only [splitChars]
      by_cases hsur : isHighSurrogate u = true
      · have hcw : m.advPair u v ≤ c.lineWidth := by
          refine hck (m.advPair u v) ?_
          rw [chunkWidths, if_pos hsur]
          exact List.mem_cons_self _ _
        have hckr : ∀ cw ∈ chunkWidths m rest, cw ≤ c.lineWidth := by
          intro cw hmem
          refine hck cw ?_
          rw [chunkWidths, if_pos hsur]
          exact List.mem_cons_of_mem _ hmem
        rw [if_pos hsur]
        by_cases hf : c.fitsInLine (width + m.advPair u v) = true
        · rw [if_neg (not_not_intro hf)]
          have hwid : width + m.advPair u v ≤ c.lineWidth := by
            have := of_decide_eq_true hf
            rw [hx] at this
            simpa using this
          have hcur2 : ∀ t, hAdvance m ((cur ++ [u, v]) ++ t)
              = (width + m.advPair u v) + hAdvance m t := by
            intro t
            rw [List.append_assoc]
            have := hcur ([u, v] ++ t)
            rw [this]
            rw [show ([u, v] : QStr) ++ t = u :: v :: t from rfl]
            rw [hAdvance_cons_cons_of_high m u v hsur t]
            omega
          obtain ⟨new, hout, hwide, hmeas, hcat⟩ :=
            ih rest hr c (cur ++ [u, v]) (width + m.advPair u v) hx hwid hckr hcur2
          refine ⟨new, hout, hwide, hmeas, ?_⟩
          rw [hcat, List.append_assoc]
          rfl
        · rw [if_pos hf]
          have hcur2 : ∀ t, hAdvance m ([u, v] ++ t)
              = m.advPair u v + hAdvance m t := by
            intro t
            rw [show ([u, v] : QStr) ++ t = u :: v :: t from rfl]
            exact hAdvance_cons_cons_of_high m u v hsur t
          obtain ⟨new, hout, hwide, hmeas, hcat⟩ :=
            ih rest hr ((c.addNoBreak (mkTextPrim m b cur width false)).breakLine)
              [u, v] (m.advPair u v) rfl hcw hckr hcur2
          refine ⟨[mkTextPrim m b cur width false, Prim.brk] ++ new, ?_, ?_, ?_, ?_⟩
          · rw [hout]
            simp [Container.addNoBreak, Container.breakLine]
          · intro p hp
            rw [List.mem_append] at hp
            rcases hp with hp | hp
            · simp only [List.mem_cons, List.not_mem_nil, or_false] at hp
              rcases hp with rfl | rfl
              · exact hw
              · exact Nat.zero_le _
            · exact hwide p hp
          · intro p hp t w hp2 tr lk he
            rw [List.mem_append] at hp
            rcases hp with hp | hp
            · simp only [List.mem_cons, List.not_mem_nil, or_false] at hp
              rcases hp with rfl | rfl
              · cases he
                have := hcur []
                simpa using this.symm
              · cases he
            · exact hmeas p hp t w hp2 tr lk he
          · rw [textConcat_append, hcat]
            simp [textConcat, mkTextPrim, Prim.textContent]
      · have hsurf : isHighSurrogate u = false := by
          cases hh : isHighSurrogate u
          · rfl
          · exact absurd hh hsur
        have hcw : m.advUnit u ≤ c.lineWidth := by
          refine hck (m.advUnit u) ?_
          rw [chunkWidths, if_neg hsur]
          exact List.mem_cons_self _ _
        have hckr : ∀ cw ∈ chunkWidths m (v :: rest), cw ≤ c.lineWidth := by
          intro cw hmem
          refine hck cw ?_
          rw [chunkWidths, if_neg hsur]
          exact List.mem_cons_of_mem _ hmem
        rw [if_neg hsur]
        by_cases hf : c.fitsInLine (width + m.advUnit u) = true
        · rw [if_neg (not_not_intro hf)]
          have hwid : width + m.advUnit u ≤ c.lineWidth := by
            have := of_decide_eq_true hf
            rw [hx] at this
            simpa using this
          have hcur2 : ∀ t, hAdvance m ((cur ++ [u]) ++ t)
              = (width + m.advUnit u) + hAdvance m t := by
            intro t
            rw [List.append_assoc]
            have := hcur ([u] ++ t)
            rw [this]
            rw [show ([u] : QStr) ++ t = u :: t from rfl]
            rw [hAdvance_cons_of_not_high m u hsurf t]
            omega
          obtain ⟨new, hout, hwide, hmeas, hcat⟩ :=
            ih (v :: rest) hvr c (cur ++ [u]) (width + m.advUnit u) hx hwid hckr hcur2
          refine ⟨new, hout, hwide, hmeas, ?_⟩
          rw [hcat, List.append_assoc]
          rfl
        · rw [if_pos hf]
          have hcur2 : ∀ t, hAdvance m ([u] ++ t)
              = m.advUnit u + hAdvance m t := by
            intro t
            rw [show ([u] : QStr) ++ t = u :: t from rfl]
            exact hAdvance_cons_of_not_high m u hsurf t
          obtain ⟨new, hout, hwide, hmeas, hcat⟩ :=
            ih (v :: rest) hvr
              ((c.addNoBreak (mkTextPrim m b cur width false)).breakLine)
              [u] (m.advUnit u) rfl hcw hckr hcur2
          refine ⟨[mkTextPrim m b cur width false, Prim.brk] ++ new, ?_, ?_, ?_, ?_⟩
          · rw [hout]
            simp [Container.addNoBreak, Container.breakLine]
          · intro p hp
            rw [List.mem_append] at hp
            rcases hp with hp | hp
            · simp only [List.mem_cons, List.not_mem_nil, or_false] at hp
              rcases hp with rfl | rfl
              · exact hw
              · exact Nat.zero_le _
            · exact hwide p hp
          · intro p hp t w hp2 tr lk he
            rw [List.mem_append] at hp
            rcases hp with hp | hp
            · simp only [List.mem_cons, List.not_mem_nil, or_false] at hp
              rcases hp with rfl | rfl
              · cases he
                have := hcur []
                simpa using this.symm
              · cases he
            · exact hmeas p hp t w hp2 tr lk he
          · rw [textConcat_append, hcat]
            simp [textConcat, mkTextPrim, Prim.textContent]

/-- The per-word wrapping step: the emitted fragments fit the line width,
record their measured advance, and concatenate to the word. -/
theorem addTextWord_spec (m : Metrics) (b : ElementBase) (c : Container)
    (w : QStr)
    (hck : ∀ cw ∈ chunkWidths m w, cw ≤ c.lineWidth) :
    ∃ new, (addTextWord m b c w).out = c.out ++ new
      ∧ (∀ p ∈ new, p.widthOf ≤ c.lineWidth)
      ∧ (∀ p ∈ new, ∀ t wd hp tr lk, p = Prim.text t wd hp tr lk
          → wd = hAdvance m t)
      ∧ textConcat new = w := by
  simp only [addTextWord]
  by_cases h1 : c.fitsInLine (hAdvance m w) = true
  · rw [if_pos h1]
    refine ⟨[mkTextPrim m b w (hAdvance m w) b.trailingSpace], rfl, ?_, ?_, ?_⟩
    · intro p hp
      rw [List.mem_singleton] at hp
      subst hp
      have := of_decide_eq_true h1
      simp only [mkTextPrim, Prim.widthOf]
      omega
    · intro p hp t wd hp2 tr lk he
      rw [List.mem_singleton] at hp
      subst hp
      cases he
      rfl
    · simp [textConcat, mkTextPrim, Prim.textContent]
  · rw [if_neg h1]
    by_cases h2 : c.atStartOfLine = true
    · rw [if_neg (not_not_intro h2)]
      have hx : c.x = 0 := of_decide_eq_true h2
      obtain ⟨new, hout, hwide, hmeas, hcat⟩ :=
        splitChars_spec m b w c [] 0 hx (Nat.zero_le _) hck (by simp)
      exact ⟨new, hout, hwide, hmeas, hcat⟩
    · rw [if_pos h2]
      by_cases h3 : (c.breakLine).fitsInLine (hAdvance m w) = true
      · rw [if_pos h3]
        refine ⟨[Prim.brk, mkTextPrim m b w (hAdvance m w) b.trailingSpace],
          ?_, ?_, ?_, ?_⟩
        · simp [Container.addNoBreak, Container.breakLine]
        · intro p hp
          simp only [List.mem_cons, List.not_mem_nil, or_false] at hp
          rcases hp with rfl | rfl
          · exact Nat.zero_le _
          · have := of_decide_eq_true h3
            simp only [Container.breakLine] at this
            simp only [mkTextPrim, Prim.widthOf]
            omega
        · intro p hp t wd hp2 tr lk he
          simp only [List.mem_cons, List.not_mem_nil, or_false] at hp
          rcases hp with rfl | rfl
          · cases he
          · cases he
            rfl
        · simp [textConcat, mkTextPrim, Prim.textContent]
      · rw [if_neg h3]
        obtain ⟨new, hout, hwide, hmeas, hcat⟩ :=
          splitChars_spec m b w c.breakLine [] 0 rfl (Nat.zero_le _) hck (by simp)
        refine ⟨Prim.brk :: new, ?_, ?_, ?_, ?_⟩
        · rw [hout]
          simp [Container.breakLine]
        · intro p hp
          rcases List.mem_cons.mp hp with rfl | hp
          · exact Nat.zero_le _
          · exact hwide p hp
        · intro p hp t wd hp2 tr lk he
          rcases List.mem_cons.mp hp with rfl | hp
          · cases he
          · exact hmeas p hp t wd hp2 tr lk he
        · rw [show textConcat (Prim.brk :: new) = textConcat new from rfl, hcat]
          rfl

/-- The word-list fold of `TextElement::addToContainer`. -/
theorem textFold_spec (m : Metrics) (b : ElementBase) :
    ∀ (ws : List Word) (c : Container),
    (∀ w ∈ ws, ∀ cw ∈ chunkWidths m w.text, cw ≤ c.lineWidth) →
    ∃ new, (ws.foldl (fun acc w => addTextWord m b acc w.text) c).out
        = c.out ++ new
      ∧ (∀ p ∈ new, p.widthOf ≤ c.lineWidth)
      ∧ (∀ p ∈ new, ∀ t wd hp tr lk, p = Prim.text t wd hp tr lk
          → wd = hAdvance m t)
      ∧ textConcat new = (ws.map Word.text).flatten := by
  intro ws
  induction ws with
  | nil =>
    intro c _
    exact ⟨[], by simp, by simp, by simp, by simp [textConcat]⟩
  | cons w rest ih =>
    intro c hck
    rw [List.foldl_cons]
    have hlw : (addTextWord m b c w.text).lineWidth = c.lineWidth :=
      (stepOk_addTextWord m b c w.text).2.1
    obtain ⟨new1, hout1, hwide1, hmeas1, hcat1⟩ :=
      addTextWord_spec m b c w.text (hck w (List.mem_cons_self w rest))
    obtain ⟨new2, hout2, hwide2, hmeas2, hcat2⟩ :=
      ih (addTextWord m b c w.text)
        (by
          intro w2 hw2 cw hcw
          rw [hlw]
          exact hck w2 (List.mem_cons_of_mem w hw2) cw hcw)
    refine ⟨new1 ++ new2, ?_, ?_, ?_, ?_⟩
    · rw [hout2, hout1, List.append_assoc]
    · intro p hp
      rcases List.mem_append.mp hp with hp | hp
      · exact hwide1 p hp
      · rw [← hlw]
        exact hwide2 p hp
    · intro p hp t wd hp2 tr lk he
      rcases List.mem_append.mp hp with hp | hp
      · exact hmeas1 p hp t wd hp2 tr lk he
      · exact hmeas2 p hp t wd hp2 tr lk he
    · rw [textConcat_append, hcat1, hcat2]
      simp

/-- C2: for every text element, word list and container whose line width
accommodates every single character unit of the words, every text
fragment `addToContainer` emits has its measured width (recorded and
equal to the metrics advance of its content) at most the line width, and
no word is dropped: the emitted fragment contents concatenate to exactly
the concatenation of the words. -/
theorem text_wrap_invariant (env : Env) (b : ElementBase) (d : TextData)
    (c : Container) (renderFlags : Nat)
    (hflags : flagsHasAny renderFlags b.flags = true)
    (hck : ∀ w ∈ d.words,
      ∀ cw ∈ chunkWidths (env.metricsOf d.style c.scale) w.text,
      cw ≤ c.lineWidth) :
    ∃ new, (textAddToContainer env b d c renderFlags).out = c.out ++ new
      ∧ (∀ p ∈ new, p.widthOf ≤ c.lineWidth)
      ∧ (∀ p ∈ new, ∀ t wd hp tr lk, p = Prim.text t wd hp tr lk
          → wd = hAdvance (env.metricsOf d.style c.scale) t)
      ∧ textConcat new = (d.words.map Word.text).flatten := by
  rw [textAddToContainer, if_pos hflags]
  exact textFold_spec (env.metricsOf d.style c.scale) b d.words c hck

/-- Witness for C2 at a concrete two-word element in a width-10
container. -/
theorem text_wrap_invariant_witness :
    flagsHasAny flagText (ElementBase.mkFlags flagText).flags = true
      ∧ (∀ w ∈ (mkTextData [100, 100, 32, 101] 0 0).words,
          ∀ cw ∈ chunkWidths (envW.metricsOf 0 cW.scale) w.text,
          cw ≤ cW.lineWidth)
      ∧ ∃ new,
        (textAddToContainer envW (ElementBase.mkFlags flagText)
            (mkTextData [100, 100, 32, 101] 0 0) cW flagText).out
          = cW.out ++ new
        ∧ (∀ p ∈ new, p.widthOf ≤ cW.lineWidth)
        ∧ (∀ p ∈ new, ∀ t wd hp tr lk, p = Prim.text t wd hp tr lk
            → wd = hAdvance (envW.metricsOf 0 cW.scale) t)
        ∧ textConcat new
          = (((mkTextData [100, 100, 32, 101] 0 0).words.map Word.text).flatten) :=
  ⟨by decide, by decide,
    text_wrap_invariant envW (ElementBase.mkFlags flagText)
      (mkTextData [100, 100, 32, 101] 0 0) cW flagText (by decide) (by decide)⟩

/-! ## Trailing-space flags of forced sub-fragments (C3) -/

/-- The character-splitting loop always ends with a final flush carrying
the element's trailing-space flag, and every primitive before it carries
no trailing space. -/
theorem splitChars_trailing (m : Metrics) (b : ElementBase) :
    ∀ (s : QStr) (c : Container) (cur : QStr) (width : Nat),
    ∃ front t w,
      (splitChars m b c cur width s).out
        = c.out ++ front ++ [Prim.text t w m.height b.trailingSpace b.link]
      ∧ ∀ p ∈ front, p.trailingOf = false := by
  suffices hfuel : ∀ (n : Nat) (s : QStr), s.length ≤ n →
      ∀ (c : Container) (cur : QStr) (width : Nat),
      ∃ front t w,
        (splitChars m b c cur width s).out
          = c.out ++ front ++ [Prim.text t w m.height b.trailingSpace b.link]
        ∧ ∀ p ∈ front, p.trailingOf = false by
    intro s c cur width
    exact hfuel s.length s le_rfl c cur width
  intro n
  induction n with
  | zero =>
    intro s hs c cur width
    have hnil : s = [] := List.eq_nil_of_length_eq_zero (Nat.le_zero.mp hs)
    subst hnil
    rw [splitChars]
    exact ⟨[], cur, width, by simp [Container.addNoBreak, mkTextPrim], by simp⟩
  | succ n ih =>
    intro s hs c cur width
    match s with
    | [] =>
      rw [splitChars]
      exact ⟨[], cur, width, by simp [Container.addNoBreak, mkTextPrim], by simp⟩
    | [u] =>
      simp only [splitChars]
      by_cases hf : c.fitsInLine (width + m.advUnit u) = true
      · rw [if_neg (not_not_intro hf)]
        exact ⟨[], cur ++ [u], width + m.advUnit u,
          by simp [Container.addNoBreak, mkTextPrim], by simp⟩
      · rw [if_pos hf]
        refine ⟨[mkTextPrim m b cur width false, Prim.brk], [u], m.advUnit u,
          ?_, ?_⟩
        · simp [Container.addNoBreak, Container.breakLine, mkTextPrim]
        · intro p hp
          simp only [List.mem_cons, List.not_mem_nil, or_false] at hp
          rcases hp with rfl | rfl
          · rfl
          · rfl
    | u :: v :: rest =>
      have hr : rest.length ≤ n := by
        simp only [List.length_cons] at hs
        omega
      have hvr : (v :: rest).length ≤ n := by
        simp only [List.length_cons] at hs ⊢
        omega
      simp only [splitChars]
      by_cases hsur : isHighSurrogate u = true
      · rw [if_pos hsur]
        by_cases hf : c.fitsInLine (width + m.advPair u v) = true
        · rw [if_neg (not_not_intro hf)]
          exact ih rest hr c (cur ++ [u, v]) (width + m.advPair u v)
        · rw [if_pos hf]
          obtain ⟨front, t, w, hout, hfront⟩ :=
            ih rest hr ((c.addNoBreak (mkTextPrim m b cur width false)).breakLine)
              [u, v] (m.advPair u v)
          refine ⟨mkTextPrim m b cur width false :: Prim.brk :: front, t, w, ?_, ?_⟩
          · rw [hout]
            simp [Container.addNoBreak, Container.breakLine]
          · intro p hp
            rcases List.mem_cons.mp hp with rfl | hp
            · rfl
            · rcases List.mem_cons.mp hp with rfl | hp
              · rfl
              · exact hfront p hp
      · rw [if_neg hsur]
        by_cases hf : c.fitsInLine (width + m.advUnit u) = true
        · rw [if_neg (not_not_intro hf)]
          exact ih (v :: rest) hvr c (cur ++ [u]) (width + m.advUnit u)
        · rw [if_pos hf]
          obtain ⟨front, t, w, hout, hfront⟩ :=
            ih (v :: rest) hvr
              ((c.addNoBreak (mkTextPrim m b cur width false)).breakLine)
              [u] (m.advUnit u)
          refine ⟨mkTextPrim m b cur width false :: Prim.brk :: front, t, w, ?_, ?_⟩
          · rw [hout]
            simp [Container.addNoBreak, Container.breakLine]
          · intro p hp
            rcases List.mem_cons.mp hp with rfl | hp
            · rfl
            · rcases List.mem_cons.mp hp with rfl | hp
              · rfl
              · exact hfront p hp

/-- C3: a word whose measured advance exceeds the full line width takes
the character-splitting path, and the wrapping step then emits the final
sub-fragment with the element's original trailing-space flag while every
earlier emitted primitive (forced sub-fragment or break) carries no
trailing space; surrogate pairs are consumed as single units by the
split (built into `splitChars`). -/
theorem text_charSplit_trailing (m : Metrics) (b : ElementBase)
    (c : Container) (w : QStr) (hwide : c.lineWidth < hAdvance m w) :
    ∃ front t wd,
      (addTextWord m b c w).out
        = c.out ++ front ++ [Prim.text t wd m.height b.trailingSpace b.link]
      ∧ ∀ p ∈ front, p.trailingOf = false := by
  have h1 : ¬ c.fitsInLine (hAdvance m w) = true := by
    rw [Container.fitsInLine]
    simp only [decide_eq_true_eq]
    omega
  simp only [addTextWord]
  rw [if_neg h1]
  by_cases h2 : c.atStartOfLine = true
  · rw [if_neg (not_not_intro h2)]
    exact splitChars_trailing m b w c [] 0
  · rw [if_pos h2]
    have h3 : ¬ (c.breakLine).fitsInLine (hAdvance m w) = true := by
      rw [Container.fitsInLine]
      simp only [Container.breakLine, decide_eq_true_eq]
      omega
    rw [if_neg h3]
    obtain ⟨front, t, wd, hout, hfront⟩ :=
      splitChars_trailing m b w c.breakLine [] 0
    refine ⟨Prim.brk :: front, t, wd, ?_, ?_⟩
    · rw [hout]
      simp [Container.breakLine]
    · intro p hp
      rcases List.mem_cons.mp hp with rfl | hp
      · rfl
      · exact hfront p hp

/-- Witness for C3 at a twelve-unit word in a width-10 container. -/
theorem text_charSplit_trailing_witness :
    cW.lineWidth < hAdvance (envW.metricsOf 0 1) (List.replicate 12 98)
      ∧ ∃ front t wd,
        (addTextWord (envW.metricsOf 0 1) (ElementBase.mkFlags flagText) cW
            (List.replicate 12 98)).out
          = cW.out ++ front
              ++ [Prim.text t wd (envW.metricsOf 0 1).height
                    (ElementBase.mkFlags flagText).trailingSpace
                    (ElementBase.mkFlags flagText).link]
        ∧ ∀ p ∈ front, p.trailingOf = false :=
  ⟨by decide,
    text_charSplit_trailing (envW.metricsOf 0 1) (ElementBase.mkFlags flagText)
      cW (List.replicate 12 98) (by decide)⟩

/-! ## Single-line text with inline emotes (C1) -/

/-- One single-line token never emits a line break. -/
theorem slTok_out_no_brk (env : Env) (m : Metrics) (b : ElementBase)
    (c : Container) (cur : QStr) (tok : ParsedWord) :
    ∃ t, (slTok env m b c cur tok).1.out = c.out ++ t ∧ Prim.brk ∉ t := by
  cases tok with
  | str s => exact ⟨[], by simp [slTok], by simp⟩
  | emoteRef p =>
    simp only [slTok]
    by_cases he : ((env.emoteOf p).imageAt c.scale).isEmpty = true
    · rw [if_pos he]
      exact ⟨[], by simp, by simp⟩
    · rw [if_neg he]
      by_cases hf : c.fitsInLine (hAdvance m cur
          + ((env.emoteOf p).imageAt c.scale).width
            * (env.emoteScale * c.scale)) = true
      · rw [if_neg (not_not_intro hf)]
        refine ⟨[mkTextPrim m b cur (hAdvance m cur) false,
          Prim.image ImageStyle.plain
            (((env.emoteOf p).imageAt c.scale).width * (env.emoteScale * c.scale))
            (((env.emoteOf p).imageAt c.scale).height * (env.emoteScale * c.scale))
            b.link], ?_, ?_⟩
        · simp [Container.addNoBreak]
        · simp [mkTextPrim]
      · rw [if_pos hf]
        exact ⟨[], by simp, by simp⟩

/-- The single-line token loop never emits a line break. -/
theorem slToks_out_no_brk (env : Env) (m : Metrics) (b : ElementBase) :
    ∀ (toks : List ParsedWord) (c : Container) (cur : QStr),
    ∃ t, (slToks env m b c cur toks).1.out = c.out ++ t ∧ Prim.brk ∉ t := by
  intro toks
  induction toks with
  | nil => intro c cur; exact ⟨[], by simp [slToks], by simp⟩
  | cons tok rest ih =>
    intro c cur
    rw [slToks]
    by_cases hstop : (slTok env m b c cur tok).2.2 = true
    · rw [if_pos hstop]
      exact slTok_out_no_brk env m b c cur tok
    · rw [if_neg hstop]
      obtain ⟨t1, ht1, hnb1⟩ := slTok_out_no_brk env m b c cur tok
      obtain ⟨t2, ht2, hnb2⟩ :=
        ih (slTok env m b c cur tok).1 (slTok env m b c cur tok).2.1
      refine ⟨t1 ++ t2, ?_, ?_⟩
      · rw [ht2, ht1, List.append_assoc]
      · intro hmem
        rcases List.mem_append.mp hmem with hmem | hmem
        · exact hnb1 hmem
        · exact hnb2 hmem

/-- The single-line word fold never emits a line break. -/
theorem slWords_out_no_brk (env : Env) (m : Metrics) (b : ElementBase) :
    ∀ (ws : List Word) (acc : Container × QStr),
    ∃ t, (ws.foldl (fun acc w => slToks env m b acc.1 acc.2 (env.parse w.text))
          acc).1.out = acc.1.out ++ t
      ∧ Prim.brk ∉ t := by
  intro ws
  induction ws with
  | nil => intro acc; exact ⟨[], by simp, by simp⟩
  | cons w rest ih =>
    intro acc
    rw [List.foldl_cons]
    obtain ⟨t1, ht1, hnb1⟩ :=
      slToks_out_no_brk env m b (env.parse w.text) acc.1 acc.2
    obtain ⟨t2, ht2, hnb2⟩ :=
      ih (slToks env m b acc.1 acc.2 (env.parse w.text))
    refine ⟨t1 ++ t2, ?_, ?_⟩
    · rw [ht2, ht1, List.append_assoc]
    · intro hmem
      rcases List.mem_append.mp hmem with hmem | hmem
      · exact hnb1 hmem
      · exact hnb2 hmem

/-- C1 (amended): once an emote image fails to fit the remaining width,
the pending text is terminated with the three-dot ellipsis and the
remaining tokens of the current word are skipped — but later words of
the element are still processed; the whole call emits exactly one line
break, at the end of the emitted primitives; and the concrete
text/emote/overflowing-text scenario emits a text fragment, the emote
image, an ellipsis-terminated remainder and the single trailing
break. -/
theorem singleLine_emote_overflow :
    (∀ (env : Env) (m : Metrics) (b : ElementBase) (c : Container)
        (cur : QStr) (p : Nat) (rest : List ParsedWord),
      ((env.emoteOf p).imageAt c.scale).isEmpty = false →
      c.fitsInLine (hAdvance m cur
        + ((env.emoteOf p).imageAt c.scale).width
          * (env.emoteScale * c.scale)) = false →
      slToks env m b c cur (ParsedWord.emoteRef p :: rest)
        = (c, cur ++ ellipsisDots))
    ∧ (∀ (env : Env) (b : ElementBase) (d : TextData) (c : Container)
        (renderFlags : Nat), flagsHasAny renderFlags b.flags = true →
      ∃ t, (slAddToContainer env b d c renderFlags).out
          = c.out ++ t ++ [Prim.brk]
        ∧ Prim.brk ∉ t)
    ∧ ((slAddToContainer envC1 (ElementBase.mkFlags flagText)
          (mkTextData ([97, 32, 69, 32] ++ List.replicate 12 98) 0 0)
          cW flagText).out
        = [Prim.text [97] 1 7 false Link.noLink,
            Prim.image ImageStyle.plain 3 1 Link.noLink,
            Prim.text [98, 98, 98, 98, 98, 0x2026] 6 7 false Link.noLink,
            Prim.brk]) := by
  refine ⟨?_, ?_, by decide⟩
  · intro env m b c cur p rest he hf
    rw [slToks]
    simp [slTok, he, hf]
  · intro env b d c renderFlags hflags
    simp only [slAddToContainer, if_pos hflags]
    obtain ⟨t, ht, hnb⟩ := slWords_out_no_brk env
      (env.metricsOf d.style c.scale) b d.words (c, [])
    by_cases hcur : (d.words.foldl
        (fun acc w => slToks env (env.metricsOf d.style c.scale) b acc.1 acc.2
          (env.parse w.text)) (c, [])).2.isEmpty = true
    · rw [if_pos hcur]
      refine ⟨t, ?_, hnb⟩
      simp only [Container.breakLine, ht]
    · rw [if_neg hcur]
      refine ⟨t ++ [mkTextPrim (env.metricsOf d.style c.scale) b
        (trimmed (d.words.foldl
          (fun acc w => slToks env (env.metricsOf d.style c.scale) b acc.1 acc.2
            (env.parse w.text)) (c, [])).2)
        (hAdvance (env.metricsOf d.style c.scale)
          (trimmed (d.words.foldl
            (fun acc w => slToks env (env.metricsOf d.style c.scale) b acc.1 acc.2
              (env.parse w.text)) (c, [])).2)) false], ?_, ?_⟩
      · simp only [Container.breakLine, Container.addNoBreak, ht]
        simp [List.append_assoc]
      · intro hmem
        rcases List.mem_append.mp hmem with hmem | hmem
        · exact hnb hmem
        · simp [mkTextPrim] at hmem

/-- C1 counterexample: at a concrete single-line element, the over-wide
emote fails to fit (first conjunct), yet a later word's emote image is
still emitted (second conjunct); dropping the later words removes it
(third conjunct), so a later word was processed after the failure. -/
theorem singleLine_counterexample :
    cW.fitsInLine (hAdvance (envC1.metricsOf 0 cW.scale) [97, 97]
        + ((envC1.emoteOf 1).imageAt cW.scale).width
          * (envC1.emoteScale * cW.scale)) = false
    ∧ Prim.image ImageStyle.plain 3 1 Link.noLink
        ∈ (slAddToContainer envC1 (ElementBase.mkFlags flagText)
            (mkTextData [97, 97, 32, 70, 32, 69] 0 0) cW flagText).out
    ∧ (slAddToContainer envC1 (ElementBase.mkFlags flagText)
          (mkTextData [97, 97, 32, 70] 0 0) cW flagText).out
        = [Prim.text [97, 97, 46, 46, 46] 5 7 false Link.noLink, Prim.brk] := by
  decide

/-- Witness for C1: the stop equation at a concrete overflowing emote,
and the single trailing break at a concrete element. -/
theorem singleLine_emote_overflow_witness :
    ((envC1.emoteOf 1).imageAt cW.scale).isEmpty = false
      ∧ cW.fitsInLine (hAdvance (envC1.metricsOf 0 cW.scale) [97, 97]
          + ((envC1.emoteOf 1).imageAt cW.scale).width
            * (envC1.emoteScale * cW.scale)) = false
      ∧ slToks envC1 (envC1.metricsOf 0 cW.scale) (ElementBase.mkFlags flagText)
          cW [97, 97] [ParsedWord.emoteRef 1]
        = (cW, [97, 97] ++ ellipsisDots)
      ∧ flagsHasAny flagText (ElementBase.mkFlags flagText).flags = true
      ∧ ∃ t, (slAddToContainer envC1 (ElementBase.mkFlags flagText)
            (mkTextData [97] 0 0) cW flagText).out
          = cW.out ++ t ++ [Prim.brk]
        ∧ Prim.brk ∉ t :=
  ⟨by decide, by decide,
    singleLine_emote_overflow.1 envC1 (envC1.metricsOf 0 cW.scale)
      (ElementBase.mkFlags flagText) cW [97, 97] 1 [] (by decide) (by decide),
    by decide,
    singleLine_emote_overflow.2.1 envC1 (ElementBase.mkFlags flagText)
      (mkTextData [97] 0 0) cW flagText (by decide)⟩

end Chatterino
